import Mathlib

/-!
Verification of the B-tree node layer of `toastsandwich/my-database`
(packages `consts`, `bnode`, `btree`).

A node is a view over a page of bytes (`BNode.Data []byte` in the source).
We model the byte store as a total function `Page : Nat → Nat`; a write
masks the stored value to one byte (`% 256`), exactly as storing into a
Go `[]byte` does, and a read re-masks.  Multi-byte reads and writes are
little-endian, mirroring `encoding/binary.LittleEndian`.  The Go slice is
one fixed 4096-byte page in this system; positions that the source
computes in `uint16` arithmetic are reduced `% 65536` at the same places
the source wraps.  `utils.Assert` (declared outside this package) is an
assertion-style fatal abort, so every operation that can assert returns
an `Option`: `none` is the aborted run.

The plain readers (`GetKey`, `NodeLookUpLE`, ...) read the byte store
without a length check and are used for properties whose inputs keep
every access inside the page.  The `B`-suffixed variants (`readU16B`,
`GetKeyB`, `NodeLookUpLEB`) additionally model Go's slice-bounds panics
on the fixed 4096-byte page (`BTREE_PAGE_SIZE`): a read or sub-slice
reaching past byte 4096 aborts, as `n.Data[pos:]` does.  On a page whose
decoded positions and lengths all land inside the page the two agree.
-/

namespace MyDB

/-- Wrap a value to Go `uint16` range, used at every spot the source does
`uint16` arithmetic. -/
def u16 (x : Nat) : Nat := x % 65536

/-- Go `uint16` addition. -/
def add16 (a b : Nat) : Nat := (a + b) % 65536

/-- Go `uint16` subtraction (wraps on underflow). -/
def sub16 (a b : Nat) : Nat := (a % 65536 + (65536 - b % 65536)) % 65536

/-- A page of bytes: the `Data []byte` field of `BNode`, as a total byte
store indexed by position. -/
def Page : Type := Nat → Nat

/-- Store one byte, masking to 8 bits as assignment into `[]byte` does. -/
def writeByte (d : Page) (p v : Nat) : Page :=
  fun q => if q = p then v % 256 else d q

/-- Little-endian read of `k` bytes starting at `p`
(`binary.LittleEndian.Uint16`/`Uint64`). -/
def readN (d : Page) (p : Nat) : Nat → Nat
  | 0 => 0
  | k + 1 => d p % 256 + 256 * readN d (p + 1) k

/-- Little-endian write of `k` bytes of `v` starting at `p`
(`binary.LittleEndian.PutUint16`/`PutUint64`). -/
def putN (d : Page) (p v : Nat) : Nat → Page
  | 0 => d
  | k + 1 => putN (writeByte d p v) (p + 1) (v / 256) k

/-- `binary.LittleEndian.Uint16(d[p:])`. -/
def readU16 (d : Page) (p : Nat) : Nat := readN d p 2

/-- `binary.LittleEndian.PutUint16(d[p:], v)`. -/
def putU16 (d : Page) (p v : Nat) : Page := putN d p v 2

/-- `binary.LittleEndian.Uint64(d[p:])`. -/
def readU64 (d : Page) (p : Nat) : Nat := readN d p 8

/-- `binary.LittleEndian.PutUint64(d[p:], v)`. -/
def putU64 (d : Page) (p v : Nat) : Page := putN d p v 8

/-- Go `copy(dst[pos:], src)` where `src` is a Lean-level byte list
(the `key`/`val` arguments). -/
def copyList (d : Page) (pos : Nat) : List Nat → Page
  | [] => d
  | b :: bs => copyList (writeByte d pos b) (pos + 1) bs

/-- Go `copy(dst[pos:], src[b:b+k])`: copy `k` bytes of page `src`
starting at `b` into `dst` starting at `pos`. -/
def copyBytes (dst : Page) (pos : Nat) (src : Page) (b : Nat) : Nat → Page
  | 0 => dst
  | k + 1 => copyBytes (writeByte dst pos (src b)) (pos + 1) src (b + 1) k

/-! ### The node codec (`BNode.go`)

`consts`: `HEADER = 4`, `BNODE_BNODE = 1` (internal), `BNODE_BLEAF = 2`
(leaf), `BTREE_PAGE_SIZE = 4096`.
-/

/-- `func (n *BNode) BType() uint16`: first two header bytes. -/
def BType (d : Page) : Nat := readU16 d 0

/-- `func (n *BNode) NKeys() uint16`: header bytes `[2,4)`. -/
def NKeys (d : Page) : Nat := readU16 d 2

/-- `func (n *BNode) SetHeader(btype, nkeys uint16)`.  The source writes
`btype` into `Data[0:2]` and then `nkeys` into `Data` — which is again
bytes `[0,2)`, not `[2,4)`. -/
def SetHeader (d : Page) (btype nkeys : Nat) : Page :=
  putU16 (putU16 d 0 btype) 0 nkeys

/-- `func (n *BNode) GetPtr(idx uint16) uint64` with its
`Assert(idx < n.NKeys())`. -/
def GetPtr (d : Page) (idx : Nat) : Option Nat :=
  if idx < NKeys d then some (readU64 d (u16 (4 + 8 * idx))) else none

/-- `func (n *BNode) SetPtr(idx uint16, val uint64)` with its
`Assert(idx < n.NKeys())`. -/
def SetPtr (d : Page) (idx v : Nat) : Option Page :=
  if idx < NKeys d then some (putU64 d (u16 (4 + 8 * idx)) v) else none

/-- `func OffsetPos(n *BNode, idx uint16) uint16` with its
`Assert(1 <= idx && idx <= n.NKeys())`. -/
def OffsetPos (d : Page) (idx : Nat) : Option Nat :=
  if 1 ≤ idx ∧ idx ≤ NKeys d then some (u16 (4 + 8 * NKeys d + 2 * (idx - 1)))
  else none

/-- `func (n *BNode) GetOffset(idx uint16) uint16`: zero for index 0,
otherwise a stored 16-bit offset at `OffsetPos`. -/
def GetOffset (d : Page) (idx : Nat) : Option Nat :=
  if idx = 0 then some 0 else (OffsetPos d idx).map (fun p => readU16 d p)

/-- `func (n *BNode) SetOffset(idx, offset uint16)`. -/
def SetOffset (d : Page) (idx off : Nat) : Option Page :=
  (OffsetPos d idx).map (fun p => putU16 d p off)

/-- `func (n *BNode) KVPos(idx uint16) uint16` with its
`Assert(idx <= n.NKeys())`: `HEADER + 8*nkeys + 2*nkeys + offset`. -/
def KVPos (d : Page) (idx : Nat) : Option Nat :=
  if idx ≤ NKeys d then
    (GetOffset d idx).map (fun off => u16 (4 + 8 * NKeys d + 2 * NKeys d + off))
  else none

/-- `func (n *BNode) GetKey(idx uint16) []byte` with its
`Assert(idx <= n.NKeys())`: reads `klen` at `KVPos(idx)` and returns the
`klen` bytes at `KVPos(idx)+4`. -/
def GetKey (d : Page) (idx : Nat) : Option (List Nat) :=
  if idx ≤ NKeys d then
    (KVPos d idx).map (fun pos =>
      (List.range (readU16 d pos)).map (fun j => d (u16 (pos + 4) + j) % 256))
  else none

/-- `func (n *BNode) GetVal(idx uint16) []byte` with its
`Assert(idx <= n.NKeys())`: reads `klen`, `vlen` at `KVPos(idx)` and
returns the `vlen` bytes at `KVPos(idx)+4+klen`. -/
def GetVal (d : Page) (idx : Nat) : Option (List Nat) :=
  if idx ≤ NKeys d then
    (KVPos d idx).map (fun pos =>
      (List.range (readU16 d (u16 (pos + 2)))).map
        (fun j => d (u16 (pos + 4 + readU16 d pos) + j) % 256))
  else none

/-- `func (n *BNode) Nbyte() uint16 = n.KVPos(n.NKeys())`. -/
def Nbyte (d : Page) : Option Nat := KVPos d (NKeys d)

/-! ### The navigator (`NodeLookUpLE`) -/

/-- Go `bytes.Compare`: lexicographic byte-slice comparison. -/
def bytesCompare : List Nat → List Nat → Ordering
  | [], [] => Ordering.eq
  | [], _ :: _ => Ordering.lt
  | _ :: _, [] => Ordering.gt
  | a :: as_, b :: bs =>
    if a < b then Ordering.lt
    else if b < a then Ordering.gt
    else bytesCompare as_ bs

/-- The `for i := 1; i < nkeys; i++` loop body of `NodeLookUpLE`:
`found = i` when `cmp <= 0`, `break` when `cmp >= 0`.  `fuel` bounds the
remaining iterations (the caller passes at least `nkeys - i`). -/
def lookLoop (d : Page) (key : List Nat) (nkeys : Nat) : Nat → Nat → Nat → Option Nat
  | found, _, 0 => some found
  | found, i, fuel + 1 =>
    if i < nkeys then
      match GetKey d i with
      | none => none
      | some ki =>
        match bytesCompare ki key with
        | Ordering.lt => lookLoop d key nkeys i (i + 1) fuel
        | Ordering.eq => some i
        | Ordering.gt => some found
    else some found

/-- `func NodeLookUpLE(n BNode, key []byte) uint16`: linear scan starting
at index 1 with `found` initialised to 0. -/
def NodeLookUpLE (d : Page) (key : List Nat) : Option Nat :=
  lookLoop d key (NKeys d) 0 1 (NKeys d)

/-! ### Bounds-checked readers on the fixed 4096-byte page

`consts.BTREE_PAGE_SIZE = 4096`.  A Go slice expression `n.Data[p:]` on
the 4096-byte page panics when `p` exceeds 4096, and
`binary.LittleEndian.Uint16` panics when fewer than two bytes remain;
`n.Data[p:][:k]` panics when `k` bytes do not remain.  These variants
make those abort paths explicit.
-/

/-- `consts.BTREE_PAGE_SIZE`. -/
def PAGE_SIZE : Nat := 4096

/-- `binary.LittleEndian.Uint16(d[p:])` on the 4096-byte page: aborts
unless two bytes remain. -/
def readU16B (d : Page) (p : Nat) : Option Nat :=
  if p + 2 ≤ PAGE_SIZE then some (readU16 d p) else none

/-- `GetOffset` with the offset-slot read bounds-checked. -/
def GetOffsetB (d : Page) (idx : Nat) : Option Nat :=
  if idx = 0 then some 0 else (OffsetPos d idx).bind (fun p => readU16B d p)

/-- `KVPos` on top of the bounds-checked offset read. -/
def KVPosB (d : Page) (idx : Nat) : Option Nat :=
  if idx ≤ NKeys d then
    (GetOffsetB d idx).map (fun off => u16 (4 + 8 * NKeys d + 2 * NKeys d + off))
  else none

/-- `GetKey` with every slice access bounds-checked: the `klen` read at
`KVPos(idx)` needs two bytes, and `n.Data[pos+4:][:klen]` needs `klen`
bytes starting at `pos+4`, all within the 4096-byte page. -/
def GetKeyB (d : Page) (idx : Nat) : Option (List Nat) :=
  if idx ≤ NKeys d then
    (KVPosB d idx).bind (fun pos =>
      (readU16B d pos).bind (fun klen =>
        if u16 (pos + 4) + klen ≤ PAGE_SIZE then
          some ((List.range klen).map (fun j => d (u16 (pos + 4) + j) % 256))
        else none))
  else none

/-- The `NodeLookUpLE` scan loop over the bounds-checked reader: an
out-of-page key decode aborts the whole lookup, as the Go panic does. -/
def lookLoopB (d : Page) (key : List Nat) (nkeys : Nat) : Nat → Nat → Nat → Option Nat
  | found, _, 0 => some found
  | found, i, fuel + 1 =>
    if i < nkeys then
      match GetKeyB d i with
      | none => none
      | some ki =>
        match bytesCompare ki key with
        | Ordering.lt => lookLoopB d key nkeys i (i + 1) fuel
        | Ordering.eq => some i
        | Ordering.gt => some found
    else some found

/-- `NodeLookUpLE` with Go's slice-bounds aborts modelled. -/
def NodeLookUpLEB (d : Page) (key : List Nat) : Option Nat :=
  lookLoopB d key (NKeys d) 0 1 (NKeys d)

/-! ### The builders (`LeafInsert`, `NodeAppendRange`, `NodeAppendKV`)

The builders take a destination node `new` and a source node `old`; we
carry both pages in one state so that every write names the buffer it
lands in, exactly as the source writes through `new.Data` only.
-/

/-- The pair of pages a builder call touches: the freshly allocated
destination (`new`) and the immutable source (`old`). -/
structure Mem where
  newD : Page
  oldD : Page

/-- The `// pointers` loop of `NodeAppendRange`:
`new.SetPtr(dstNew+i, old.GetPtr(srcOld+i))` for `i = 0 .. n-1`. -/
def ptrLoop (dst src : Nat) : Nat → Nat → Mem → Option Mem
  | _, 0, m => some m
  | i, fuel + 1, m =>
    match GetPtr m.oldD (u16 (src + i)) with
    | none => none
    | some p =>
      match SetPtr m.newD (u16 (dst + i)) p with
      | none => none
      | some d => ptrLoop dst src (i + 1) fuel { m with newD := d }

/-- The `// offsets` loop of `NodeAppendRange`:
`new.SetOffset(dstNew+i, dstBegin + old.GetOffset(srcOld+i) - srcBegin)`
for `i = 1 .. n`. -/
def offLoop (dst src dstBegin srcBegin : Nat) : Nat → Nat → Mem → Option Mem
  | _, 0, m => some m
  | i, fuel + 1, m =>
    match GetOffset m.oldD (u16 (src + i)) with
    | none => none
    | some o =>
      match SetOffset m.newD (u16 (dst + i)) (sub16 (add16 dstBegin o) srcBegin) with
      | none => none
      | some d => offLoop dst src dstBegin srcBegin (i + 1) fuel { m with newD := d }

/-- `func NodeAppendRange(new, old BNode, dstNew, srcOld, n uint16)`:
asserts, early return on `n == 0`, pointer loop, offset loop re-based at
the destination cursor, then one raw byte copy of the records. -/
def NodeAppendRange (m : Mem) (dstNew srcOld n : Nat) : Option Mem :=
  if add16 srcOld n ≤ NKeys m.oldD then
    if add16 dstNew n ≤ NKeys m.newD then
      if n = 0 then some m
      else
        match ptrLoop dstNew srcOld 0 n m with
        | none => none
        | some m1 =>
          match GetOffset m1.newD dstNew, GetOffset m1.oldD srcOld with
          | some dstBegin, some srcBegin =>
            match offLoop dstNew srcOld dstBegin srcBegin 1 n m1 with
            | none => none
            | some m2 =>
              match KVPos m2.oldD srcOld, KVPos m2.oldD (u16 (srcOld + n)),
                    KVPos m2.newD dstNew with
              | some b, some e, some pos =>
                some { m2 with newD := copyBytes m2.newD pos m2.oldD b (e - b) }
              | _, _, _ => none
          | _, _ => none
    else none
  else none

/-- `func NodeAppendKV(new BNode, idx uint16, ptr uint64, key, val []byte)`:
pointer, `klen`/`vlen`, key bytes, value bytes at `KVPos(idx)`, then the
next offset. -/
def NodeAppendKV (m : Mem) (idx ptr : Nat) (key val : List Nat) : Option Mem :=
  match SetPtr m.newD idx ptr with
  | none => none
  | some d0 =>
    match KVPos d0 idx with
    | none => none
    | some pos =>
      let d1 := putU16 d0 pos (u16 key.length)
      let d2 := putU16 d1 (u16 (pos + 2)) (u16 val.length)
      let d3 := copyList d2 (u16 (pos + 4)) key
      let d4 := copyList d3 (u16 (pos + 4 + u16 key.length)) val
      match GetOffset d4 idx with
      | none => none
      | some o =>
        match SetOffset d4 (add16 idx 1)
            (add16 (add16 o 4) (u16 (key.length + val.length))) with
        | none => none
        | some d5 => some { m with newD := d5 }

/-- `func LeafInsert(new, old BNode, idx uint16, key, val []byte)`:
header, prefix copy, the new entry, suffix copy. -/
def LeafInsert (m : Mem) (idx : Nat) (key val : List Nat) : Option Mem :=
  let m0 : Mem := { m with newD := SetHeader m.newD 2 (add16 (NKeys m.oldD) 1) }
  match NodeAppendRange m0 0 0 idx with
  | none => none
  | some m1 =>
    match NodeAppendKV m1 idx 0 key val with
    | none => none
    | some m2 => NodeAppendRange m2 (add16 idx 1) idx (sub16 (NKeys m2.oldD) idx)

/-! ### Concrete pages used as test inputs -/

/-- A page whose bytes are all zero, as returned by a fresh allocation. -/
def zeroPage : Page := fun _ => 0

/-- A page holding the given byte list, zero beyond it. -/
def mkPage (l : List Nat) : Page := fun p => l.getD p 0

/-- A leaf with one entry `([7], [9])`: header `type=2, nkeys=1`, one
zero pointer, offset list `[6]`, record `klen=1, vlen=1, key 7, val 9`. -/
def nodeOne : Page :=
  mkPage [2, 0, 1, 0, 0, 0, 0, 0, 0, 0, 0, 0, 6, 0, 1, 0, 1, 0, 7, 9]

/-- A leaf with no entries: header `type=2, nkeys=0` only. -/
def nodeEmpty : Page := mkPage [2, 0, 0, 0]

/-- A leaf with two entries `([10],[100])`, `([20],[101])`: offsets
`[6, 12]`, records at byte 24. -/
def nodeTwo : Page :=
  mkPage [2, 0, 2, 0,
    0, 0, 0, 0, 0, 0, 0, 0, 0, 0, 0, 0, 0, 0, 0, 0,
    6, 0, 12, 0,
    1, 0, 1, 0, 10, 100, 1, 0, 1, 0, 20, 101]

/-- Like `nodeTwo` but with different bytes in the slot-0 record
(`([3],[50])` instead of `([10],[100])`): only the sentinel entry
differs. -/
def nodeTwoB : Page :=
  mkPage [2, 0, 2, 0,
    0, 0, 0, 0, 0, 0, 0, 0, 0, 0, 0, 0, 0, 0, 0, 0,
    6, 0, 12, 0,
    1, 0, 1, 0, 3, 50, 1, 0, 1, 0, 20, 101]

/-- A leaf with three entries `([10],[100])`, `([20],[101])`,
`([30],[102])`: offsets `[6, 12, 18]`, records at byte 34. -/
def nodeThree : Page :=
  mkPage [2, 0, 3, 0,
    0, 0, 0, 0, 0, 0, 0, 0, 0, 0, 0, 0, 0, 0, 0, 0, 0, 0, 0, 0, 0, 0, 0, 0,
    6, 0, 12, 0, 18, 0,
    1, 0, 1, 0, 10, 100, 1, 0, 1, 0, 20, 101, 1, 0, 1, 0, 30, 102]

/-- A 4096-byte page with a corrupt offset list: the header says
`nkeys = 2` but the stored offset for entry 1 is 60000
(little-endian `[96, 234]`), so `KVPos(1) = 24 + 60000 = 60024` points
far past the page and decoding key 1 trips the slice bounds check. -/
def nodeCorrupt : Page :=
  mkPage [2, 0, 2, 0,
    0, 0, 0, 0, 0, 0, 0, 0, 0, 0, 0, 0, 0, 0, 0, 0,
    96, 234, 0, 0]

/-- A fresh destination page whose header already records one key slot
(`nkeys = 1`), as `NodeAppendKV` requires of its destination. -/
def freshOne : Page := mkPage [0, 0, 1, 0]

/-- A fresh destination page whose header already records two key slots
(`nkeys = 2`), as `NodeAppendRange` requires of its destination. -/
def freshTwo : Page := mkPage [0, 0, 2, 0]

/-- Destination/source pair for the `NodeAppendKV` test: a fresh
one-slot destination and an (unused) zero source page. -/
def memC7 : Mem := { newD := freshOne, oldD := zeroPage }

/-- Destination/source pair for the `NodeAppendRange` test: a fresh
two-slot destination and the two-entry leaf as source. -/
def memC6 : Mem := { newD := freshTwo, oldD := nodeTwo }

/-- Specification predicate: if the call completes, the source (`old`)
page holds exactly the bytes it held before. -/
def oldUnchanged (m : Mem) : Option Mem → Prop
  | none => True
  | some m' => m'.oldD = m.oldD

/-- The key stored at slot `i`, with `[]` as the (never used) default. -/
def keyAt (d : Page) (i : Nat) : List Nat := (GetKey d i).getD []

/-! ### Byte-store lemmas -/

theorem writeByte_same (d : Page) (p v : Nat) : writeByte d p v p = v % 256 := by
  simp [writeByte]

theorem writeByte_other (d : Page) (p v q : Nat) (h : q ≠ p) :
    writeByte d p v q = d q := by
  simp [writeByte, h]

theorem putN_out : ∀ (k : Nat) (d : Page) (p v q : Nat),
    q < p ∨ p + k ≤ q → putN d p v k q = d q := by
  intro k
  induction k with
  | zero => intro d p v q _; rfl
  | succ k ih =>
    intro d p v q hq
    show putN (writeByte d p v) (p + 1) (v / 256) k q = d q
    rw [ih _ _ _ _ (by omega), writeByte_other _ _ _ _ (by omega)]

theorem readN_ext : ∀ (k : Nat) (d1 d2 : Page) (p : Nat),
    (∀ j, j < k → d1 (p + j) = d2 (p + j)) → readN d1 p k = readN d2 p k := by
  intro k
  induction k with
  | zero => intro d1 d2 p _; rfl
  | succ k ih =>
    intro d1 d2 p h
    show d1 p % 256 + 256 * readN d1 (p + 1) k
        = d2 p % 256 + 256 * readN d2 (p + 1) k
    have h0 : d1 p = d2 p := by have := h 0 (by omega); simpa using this
    have : readN d1 (p + 1) k = readN d2 (p + 1) k := by
      apply ih; intro j hj
      have := h (1 + j) (by omega)
      simpa [Nat.add_assoc] using this
    rw [h0, this]

theorem readN_lt : ∀ (k : Nat) (d : Page) (p : Nat), readN d p k < 256 ^ k := by
  intro k
  induction k with
  | zero => intro d p; simp [readN]
  | succ k ih =>
    intro d p
    show d p % 256 + 256 * readN d (p + 1) k < 256 ^ (k + 1)
    have h1 : d p % 256 < 256 := Nat.mod_lt _ (by omega)
    have h2 : readN d (p + 1) k < 256 ^ k := ih d (p + 1)
    have h3 : 256 ^ (k + 1) = 256 * 256 ^ k := by ring
    omega

theorem readN_putN_same : ∀ (k : Nat) (d : Page) (p v : Nat),
    readN (putN d p v k) p k = v % 256 ^ k := by
  intro k
  induction k with
  | zero => intro d p v; simp [readN, putN, Nat.mod_one]
  | succ k ih =>
    intro d p v
    show readN (putN (writeByte d p v) (p + 1) (v / 256) k) p (k + 1) = v % 256 ^ (k + 1)
    have hb : putN (writeByte d p v) (p + 1) (v / 256) k p = v % 256 := by
      rw [putN_out _ _ _ _ _ (by omega), writeByte_same]
    show putN (writeByte d p v) (p + 1) (v / 256) k p % 256
        + 256 * readN (putN (writeByte d p v) (p + 1) (v / 256) k) (p + 1) k
        = v % 256 ^ (k + 1)
    rw [hb, ih, Nat.mod_mod_of_dvd _ (by norm_num)]
    have h3 : 256 ^ (k + 1) = 256 * 256 ^ k := by ring
    rw [h3, Nat.mod_mul]

theorem readN_putN_out (kr kw : Nat) (d : Page) (p v q : Nat)
    (h : q + kr ≤ p ∨ p + kw ≤ q) :
    readN (putN d p v kw) q kr = readN d q kr := by
  apply readN_ext
  intro j hj
  exact putN_out _ _ _ _ _ (by omega)

theorem copyList_out : ∀ (l : List Nat) (d : Page) (pos q : Nat),
    q < pos ∨ pos + l.length ≤ q → copyList d pos l q = d q := by
  intro l
  induction l with
  | nil => intro d pos q _; rfl
  | cons b bs ih =>
    intro d pos q hq
    show copyList (writeByte d pos b) (pos + 1) bs q = d q
    rw [ih _ _ _ (by simp at hq ⊢; omega), writeByte_other _ _ _ _ (by simp at hq; omega)]

theorem copyList_in : ∀ (l : List Nat) (d : Page) (pos j : Nat),
    j < l.length → copyList d pos l (pos + j) = l.getD j 0 % 256 := by
  intro l
  induction l with
  | nil => intro d pos j h; simp at h
  | cons b bs ih =>
    intro d pos j hj
    show copyList (writeByte d pos b) (pos + 1) bs (pos + j) = (b :: bs).getD j 0 % 256
    match j with
    | 0 =>
      rw [copyList_out _ _ _ _ (by omega)]
      simpa using writeByte_same d pos b
    | j + 1 =>
      have := ih (writeByte d pos b) (pos + 1) j (by simpa using hj)
      simpa [Nat.add_assoc, Nat.add_comm 1 j] using this

theorem copyBytes_out : ∀ (k : Nat) (dst : Page) (pos : Nat) (src : Page) (b q : Nat),
    q < pos ∨ pos + k ≤ q → copyBytes dst pos src b k q = dst q := by
  intro k
  induction k with
  | zero => intro dst pos src b q _; rfl
  | succ k ih =>
    intro dst pos src b q hq
    show copyBytes (writeByte dst pos (src b)) (pos + 1) src (b + 1) k q = dst q
    rw [ih _ _ _ _ _ (by omega), writeByte_other _ _ _ _ (by omega)]

theorem copyBytes_in : ∀ (k : Nat) (dst : Page) (pos : Nat) (src : Page) (b j : Nat),
    j < k → copyBytes dst pos src b k (pos + j) = src (b + j) % 256 := by
  intro k
  induction k with
  | zero => intro dst pos src b j h; omega
  | succ k ih =>
    intro dst pos src b j hj
    show copyBytes (writeByte dst pos (src b)) (pos + 1) src (b + 1) k (pos + j)
        = src (b + j) % 256
    match j with
    | 0 =>
      rw [copyBytes_out _ _ _ _ _ _ (by omega)]
      simpa using writeByte_same dst pos (src b)
    | j + 1 =>
      have := ih (writeByte dst pos (src b)) (pos + 1) src (b + 1) j (by omega)
      simpa [Nat.add_assoc, Nat.add_comm 1 j] using this

/-- A 16-bit read is below `65536`; in particular every `NKeys` is. -/
theorem readU16_lt (d : Page) (p : Nat) : readU16 d p < 65536 := by
  have := readN_lt 2 d p
  norm_num at this
  exact this

theorem NKeys_lt (d : Page) : NKeys d < 65536 := readU16_lt d 2

/-- Writes at positions `≥ 4` do not change the stored key count. -/
theorem NKeys_putN (d : Page) (p v k : Nat) (h : 4 ≤ p) :
    NKeys (putN d p v k) = NKeys d := by
  show readN (putN d p v k) 2 2 = readN d 2 2
  exact readN_putN_out _ _ _ _ _ _ (by omega)

theorem NKeys_copyList (d : Page) (p : Nat) (l : List Nat) (h : 4 ≤ p) :
    NKeys (copyList d p l) = NKeys d := by
  show readN (copyList d p l) 2 2 = readN d 2 2
  apply readN_ext
  intro j hj
  exact copyList_out _ _ _ _ (by omega)

theorem NKeys_copyBytes (dst : Page) (p : Nat) (src : Page) (b k : Nat) (h : 4 ≤ p) :
    NKeys (copyBytes dst p src b k) = NKeys dst := by
  show readN (copyBytes dst p src b k) 2 2 = readN dst 2 2
  apply readN_ext
  intro j hj
  exact copyBytes_out _ _ _ _ _ _ (by omega)

theorem u16_eq_self (x : Nat) (h : x < 65536) : u16 x = x := Nat.mod_eq_of_lt h

/-! ### Lexicographic comparison lemmas -/

theorem bytesCompare_eq_iff : ∀ (a b : List Nat), bytesCompare a b = Ordering.eq ↔ a = b := by
  intro a
  induction a with
  | nil => intro b; cases b <;> simp [bytesCompare]
  | cons x as_ ih =>
    intro b
    cases b with
    | nil => simp [bytesCompare]
    | cons y bs =>
      show (if x < y then Ordering.lt else if y < x then Ordering.gt
            else bytesCompare as_ bs) = Ordering.eq ↔ _
      split_ifs with h1 h2
      · simp; omega
      · simp; omega
      · have hxy : x = y := by omega
        simp [hxy, ih]

theorem bytesCompare_lt_gt : ∀ (a b : List Nat),
    bytesCompare a b = Ordering.lt ↔ bytesCompare b a = Ordering.gt := by
  intro a
  induction a with
  | nil => intro b; cases b <;> simp [bytesCompare]
  | cons x as_ ih =>
    intro b
    cases b with
    | nil => simp [bytesCompare]
    | cons y bs =>
      show (if x < y then Ordering.lt else if y < x then Ordering.gt
            else bytesCompare as_ bs) = Ordering.lt ↔
          (if y < x then Ordering.lt else if x < y then Ordering.gt
            else bytesCompare bs as_) = Ordering.gt
      split_ifs with h1 h2 <;> simp_all <;> omega

theorem bytesCompare_lt_trans : ∀ (a b c : List Nat),
    bytesCompare a b = Ordering.lt → bytesCompare b c = Ordering.lt →
    bytesCompare a c = Ordering.lt := by
  intro a
  induction a with
  | nil =>
    intro b c hab hbc
    cases b with
    | nil => simp [bytesCompare] at hab
    | cons y bs =>
      cases c with
      | nil => simp [bytesCompare] at hbc
      | cons z cs => simp [bytesCompare]
  | cons x as_ ih =>
    intro b c hab hbc
    cases b with
    | nil => simp [bytesCompare] at hab
    | cons y bs =>
      cases c with
      | nil => simp [bytesCompare] at hbc
      | cons z cs =>
        revert hab hbc
        show (if x < y then Ordering.lt else if y < x then Ordering.gt
              else bytesCompare as_ bs) = Ordering.lt →
            (if y < z then Ordering.lt else if z < y then Ordering.gt
              else bytesCompare bs cs) = Ordering.lt →
            (if x < z then Ordering.lt else if z < x then Ordering.gt
              else bytesCompare as_ cs) = Ordering.lt
        split_ifs <;> intro hab hbc <;> simp_all <;>
          first
          | omega
          | exact ih bs cs hab hbc

/-! ### Codec-level helper lemmas -/

theorem GetOffset_zero (d : Page) : GetOffset d 0 = some 0 := rfl

theorem GetOffset_pos (d : Page) (idx : Nat) (h1 : 1 ≤ idx) (h2 : idx ≤ NKeys d)
    (h3 : 4 + 8 * NKeys d + 2 * (idx - 1) < 65536) :
    GetOffset d idx = some (readU16 d (4 + 8 * NKeys d + 2 * (idx - 1))) := by
  have : idx ≠ 0 := by omega
  simp only [GetOffset, OffsetPos, this, if_neg, if_pos (And.intro h1 h2), Option.map_some]
  rw [u16_eq_self _ h3]
  simp

theorem GetOffset_isSome (d : Page) (idx : Nat) (h : idx ≤ NKeys d) :
    ∃ o, GetOffset d idx = some o ∧ o < 65536 := by
  match idx with
  | 0 => exact ⟨0, rfl, by omega⟩
  | idx + 1 =>
    refine ⟨readU16 d (u16 (4 + 8 * NKeys d + 2 * (idx + 1 - 1))), ?_, readU16_lt _ _⟩
    have hne : idx + 1 ≠ 0 := by omega
    simp only [GetOffset, hne, if_neg, OffsetPos,
      if_pos (And.intro (by omega : 1 ≤ idx + 1) h)]
    simp

theorem KVPos_eq (d : Page) (idx : Nat) (h : idx ≤ NKeys d) :
    ∀ o, GetOffset d idx = some o →
    KVPos d idx = some (u16 (4 + 10 * NKeys d + o)) := by
  intro o ho
  simp only [KVPos, if_pos h, ho]
  have harith : 4 + 8 * NKeys d + 2 * NKeys d + o = 4 + 10 * NKeys d + o := by ring
  simp [harith]

theorem GetPtr_eq (d : Page) (idx : Nat) (h : idx < NKeys d) (h2 : 4 + 8 * idx < 65536) :
    GetPtr d idx = some (readN d (4 + 8 * idx) 8) := by
  simp only [GetPtr, if_pos h, readU64]
  rw [u16_eq_self _ h2]

theorem readN_copyList_out (kr : Nat) (l : List Nat) (d : Page) (pos q : Nat)
    (h : q + kr ≤ pos ∨ pos + l.length ≤ q) :
    readN (copyList d pos l) q kr = readN d q kr := by
  apply readN_ext
  intro j hj
  exact copyList_out _ _ _ _ (by omega)

theorem range_map_getD : ∀ (l : List Nat),
    (List.range l.length).map (fun j => l.getD j 0) = l := by
  intro l
  induction l with
  | nil => rfl
  | cons b bs ih =>
    rw [List.length_cons, List.range_succ_eq_map, List.map_cons, List.map_map]
    simp only [Function.comp_def, List.getD_cons_zero, List.getD_cons_succ]
    rw [ih]

/-- Two pages that agree on the two bytes of offset slot `idx` (and have
the same key count) decode the same `GetOffset idx`. -/
theorem GetOffset_congr (d' d : Page) (idx : Nat)
    (hnk : NKeys d' = NKeys d)
    (h16 : 4 + 10 * NKeys d < 65536)
    (hidx : idx ≤ NKeys d)
    (hb : ∀ q, 4 + 8 * NKeys d + 2 * (idx - 1) ≤ q →
      q < 4 + 8 * NKeys d + 2 * idx → d' q = d q) :
    GetOffset d' idx = GetOffset d idx := by
  by_cases h0 : idx = 0
  · subst h0
    rfl
  · rw [GetOffset_pos d' idx (by omega) (by omega) (by rw [hnk]; omega),
      GetOffset_pos d idx (by omega) (by omega) (by omega), hnk]
    refine congrArg some ?_
    apply readN_ext
    intro j hj
    exact hb _ (by omega) (by omega)

/-! ### Frame lemmas: no builder ever writes into the source page -/

theorem ptrLoop_old : ∀ (fuel i dst src : Nat) (m m' : Mem),
    ptrLoop dst src i fuel m = some m' → m'.oldD = m.oldD := by
  intro fuel
  induction fuel with
  | zero =>
    intro i dst src m m' h
    cases h
    rfl
  | succ fuel ih =>
    intro i dst src m m' h
    simp only [ptrLoop] at h
    split at h
    · exact absurd h (by simp)
    next p hp =>
      split at h
      · exact absurd h (by simp)
      next d hd =>
        exact ih (i + 1) dst src { m with newD := d } m' h

theorem offLoop_old : ∀ (fuel i dst src dB sB : Nat) (m m' : Mem),
    offLoop dst src dB sB i fuel m = some m' → m'.oldD = m.oldD := by
  intro fuel
  induction fuel with
  | zero =>
    intro i dst src dB sB m m' h
    cases h
    rfl
  | succ fuel ih =>
    intro i dst src dB sB m m' h
    simp only [offLoop] at h
    split at h
    · exact absurd h (by simp)
    next o ho =>
      split at h
      · exact absurd h (by simp)
      next d hd =>
        exact ih (i + 1) dst src dB sB { m with newD := d } m' h

theorem NodeAppendRange_old (m : Mem) (dst src n : Nat) :
    oldUnchanged m (NodeAppendRange m dst src n) := by
  unfold oldUnchanged
  split
  · trivial
  next m' heq =>
    simp only [NodeAppendRange] at heq
    split_ifs at heq
    · cases heq; rfl
    · split at heq
      · exact absurd heq (by simp)
      next m1 h1 =>
        split at heq
        next dB sB hdB hsB =>
          split at heq
          · exact absurd heq (by simp)
          next m2 h2 =>
            split at heq
            next b e pos hb he hpos =>
              cases heq
              have e2 : m2.oldD = m1.oldD := offLoop_old _ _ _ _ _ _ _ _ h2
              have e1 : m1.oldD = m.oldD := ptrLoop_old _ _ _ _ _ _ h1
              simpa [e2] using e1
            next => exact absurd heq (by simp)
        next => exact absurd heq (by simp)

theorem NodeAppendKV_old (m : Mem) (idx ptr : Nat) (key val : List Nat) :
    oldUnchanged m (NodeAppendKV m idx ptr key val) := by
  unfold oldUnchanged
  split
  · trivial
  next m' heq =>
    simp only [NodeAppendKV] at heq
    split at heq
    · exact absurd heq (by simp)
    · split at heq
      · exact absurd heq (by simp)
      · split at heq
        · exact absurd heq (by simp)
        · split at heq
          · exact absurd heq (by simp)
          · cases heq; rfl

theorem LeafInsert_old (m : Mem) (idx : Nat) (key val : List Nat) :
    oldUnchanged m (LeafInsert m idx key val) := by
  unfold oldUnchanged
  split
  · trivial
  next m' heq =>
    simp only [LeafInsert] at heq
    split at heq
    · exact absurd heq (by simp)
    next m1 h1 =>
      split at heq
      · exact absurd heq (by simp)
      next m2 h2 =>
        have e1 : m1.oldD = m.oldD := by
          have := NodeAppendRange_old
            { m with newD := SetHeader m.newD 2 (add16 (NKeys m.oldD) 1) } 0 0 idx
          unfold oldUnchanged at this
          rw [h1] at this
          exact this
        have e2 : m2.oldD = m1.oldD := by
          have := NodeAppendKV_old m1 idx 0 key val
          unfold oldUnchanged at this
          rw [h2] at this
          exact this
        have e3 : m'.oldD = m2.oldD := by
          have := NodeAppendRange_old m2 (add16 idx 1) idx (sub16 (NKeys m2.oldD) idx)
          unfold oldUnchanged at this
          rw [heq] at this
          exact this
        rw [e3, e2, e1]

/-- What `SetHeader` actually does: the second `PutUint16` lands on bytes
`[0,2)` again, so the type field ends up holding `nkeys` and the stored
key count is never written. -/
theorem SetHeader_actual (d : Page) (t k : Nat) :
    BType (SetHeader d t k) = k % 65536 ∧ NKeys (SetHeader d t k) = NKeys d := by
  constructor
  · show readN (putN (putN d 0 t 2) 0 k 2) 0 2 = k % 65536
    have h := readN_putN_same 2 (putN d 0 t 2) 0 k
    norm_num at h
    exact h
  · show readN (putN (putN d 0 t 2) 0 k 2) 2 2 = readN d 2 2
    rw [readN_putN_out 2 2 _ 0 k 2 (by omega), readN_putN_out 2 2 _ 0 t 2 (by omega)]

/-- C1: the claim says that after `SetHeader(t, k)` the node reports
`BType() = t` and `NKeys() = k`.  The code instead writes `k` over the
type field (bytes `[0,2)`) and never touches bytes `[2,4)`: on an all-zero
page, `SetHeader(2, 1)` yields `BType() = 1` and `NKeys() = 0`, and in
general the stored key count is unchanged by `SetHeader`. -/
theorem C1_setHeader_bug :
    BType (SetHeader zeroPage 2 1) = 1 ∧ NKeys (SetHeader zeroPage 2 1) = 0 ∧
    ∀ (d : Page) (t k : Nat), NKeys (SetHeader d t k) = NKeys d :=
  ⟨by decide, by decide, fun d t k => (SetHeader_actual d t k).2⟩

/-- C2: the claim says `LeafInsert` builds a node whose `GetKey`/`GetVal`
return the stored byte strings.  Because `SetHeader` never stores the key
count, the new node still reports `NKeys() = 0` and the very first
`SetPtr` assertion inside `NodeAppendKV` fails: on a fresh zero page and
an empty leaf, inserting `([1], [2])` at index 0 aborts. -/
theorem C2_leafInsert_aborts :
    LeafInsert { newD := zeroPage, oldD := nodeEmpty } 0 [1] [2] = none :=
  Option.isNone_iff_eq_none.mp (by decide)

/-- C5: the claim states the `LeafInsert` postcondition (old entries
shifted around the new pair, leaf header, `key_count = old.key_count+1`).
On a fresh zero page and the one-entry leaf `nodeOne`, inserting at index
1 aborts in the first `NodeAppendRange` assertion
(`dstNew + n = 1 > new.NKeys() = 0`), again because `SetHeader` never
stored the key count. -/
theorem C5_leafInsert_aborts :
    LeafInsert { newD := zeroPage, oldD := nodeOne } 1 [8] [9] = none :=
  Option.isNone_iff_eq_none.mp (by decide)

/-- C3 counterexample: the claim demands that an access at
`i = key_count` fail, but `GetKey`/`GetVal` assert `idx <= NKeys()`, so on
the one-entry leaf `nodeOne` the access at index 1 passes the assertion
and returns (garbage) data instead of failing. -/
theorem C3_counterexample :
    NKeys nodeOne = 1 ∧ (GetKey nodeOne 1).isSome = true ∧
    (GetVal nodeOne 1).isSome = true := by decide

/-- C3 (amended): `GetKey`/`GetVal` assert `idx ≤ key_count`, so every
access with `i` strictly greater than `key_count` fails, while the access
at `i = key_count` passes the assertion. -/
theorem C3_bounds_amended (d : Page) (idx : Nat) (h : NKeys d < idx) :
    GetKey d idx = none ∧ GetVal d idx = none := by
  constructor
  · simp only [GetKey, if_neg (by omega : ¬ idx ≤ NKeys d)]
  · simp only [GetVal, if_neg (by omega : ¬ idx ≤ NKeys d)]

/-- C3 witness: on the one-entry leaf, index 2 exceeds the key count and
both accessors abort. -/
theorem C3_bounds_witness :
    NKeys nodeOne < 2 ∧ (GetKey nodeOne 2 = none ∧ GetVal nodeOne 2 = none) :=
  ⟨by decide, C3_bounds_amended nodeOne 2 (by decide)⟩

/-- C8: for `0 ≤ i ≤ key_count`, `KVPos(i) = HEADER + 10*key_count +
read_offset(i)` (as a `uint16`), `read_offset(0) = 0`, `Nbyte()` is
`KVPos(key_count)`, and an empty node has `Nbyte() = 4`. -/
theorem C8_kvpos_layout (d : Page) (i : Nat) (h : i ≤ NKeys d) :
    (∃ off, GetOffset d i = some off ∧
      KVPos d i = some (u16 (4 + 10 * NKeys d + off))) ∧
    GetOffset d 0 = some 0 ∧
    Nbyte d = KVPos d (NKeys d) ∧
    (NKeys d = 0 → Nbyte d = some 4) := by
  refine ⟨?_, rfl, rfl, ?_⟩
  · obtain ⟨o, ho, _⟩ := GetOffset_isSome d i h
    exact ⟨o, ho, KVPos_eq d i h o ho⟩
  · intro h0
    show KVPos d (NKeys d) = some 4
    rw [KVPos_eq d (NKeys d) (by omega) 0 (by rw [h0]; rfl), h0]
    rfl

/-- C8 witness: the one-entry leaf at `i = 1` has offset 6 and
`KVPos(1) = 4 + 10 + 6 = 20`. -/
theorem C8_kvpos_witness :
    1 ≤ NKeys nodeOne ∧
    ((∃ off, GetOffset nodeOne 1 = some off ∧
        KVPos nodeOne 1 = some (u16 (4 + 10 * NKeys nodeOne + off))) ∧
      GetOffset nodeOne 0 = some 0 ∧
      Nbyte nodeOne = KVPos nodeOne (NKeys nodeOne) ∧
      (NKeys nodeOne = 0 → Nbyte nodeOne = some 4)) :=
  ⟨by decide, C8_kvpos_layout nodeOne 1 (by decide)⟩

/-- C9: the builders never mutate their source node: whenever
`NodeAppendRange`, `NodeAppendKV` or `LeafInsert` completes, the `old`
page holds exactly the bytes it held before the call (and no write ever
names the `old` page on the aborted runs either: every store in the model
targets the destination buffer). -/
theorem C9_builders_pure (m : Mem) (dst src n idx ptr : Nat) (key val : List Nat) :
    oldUnchanged m (NodeAppendRange m dst src n) ∧
    oldUnchanged m (NodeAppendKV m idx ptr key val) ∧
    oldUnchanged m (LeafInsert m idx key val) :=
  ⟨NodeAppendRange_old m dst src n, NodeAppendKV_old m idx ptr key val,
    LeafInsert_old m idx key val⟩

/-! ### Navigator lemmas -/

theorem GetKey_isSome (d : Page) (i : Nat) (h : i ≤ NKeys d) :
    GetKey d i = some (keyAt d i) := by
  obtain ⟨o, ho, _⟩ := GetOffset_isSome d i h
  have hkv := KVPos_eq d i h o ho
  simp only [GetKey, if_pos h, hkv, Option.map_some, keyAt]
  simp [GetKey, if_pos h, hkv]

theorem lookLoopB_total (d : Page) (key : List Nat)
    (hread : ∀ i, i < NKeys d → 1 ≤ i → (GetKeyB d i).isSome = true) :
    ∀ (fuel i found : Nat), 1 ≤ i → found < NKeys d →
    ∃ r, lookLoopB d key (NKeys d) found i fuel = some r ∧ r < NKeys d := by
  intro fuel
  induction fuel with
  | zero =>
    intro i found _ h
    exact ⟨found, rfl, h⟩
  | succ fuel ih =>
    intro i found hi1 h
    by_cases hi : i < NKeys d
    · obtain ⟨ki, hki⟩ := Option.isSome_iff_exists.mp (hread i hi hi1)
      simp only [lookLoopB, if_pos hi, hki]
      cases hc : bytesCompare ki key with
      | lt => exact ih (i + 1) i (by omega) hi
      | eq => exact ⟨i, rfl, hi⟩
      | gt => exact ⟨found, rfl, h⟩
    · simp only [lookLoopB, if_neg hi]
      exact ⟨found, rfl, h⟩

theorem lookLoopB_congr (d d' : Page) (key : List Nat)
    (hkeys : ∀ i, i < NKeys d → 1 ≤ i → GetKeyB d i = GetKeyB d' i) :
    ∀ (fuel i found : Nat), 1 ≤ i →
    lookLoopB d key (NKeys d) found i fuel
      = lookLoopB d' key (NKeys d) found i fuel := by
  intro fuel
  induction fuel with
  | zero => intro i found _; rfl
  | succ fuel ih =>
    intro i found hi1
    by_cases hi : i < NKeys d
    · have hk : GetKeyB d i = GetKeyB d' i := hkeys i hi hi1
      cases hgk : GetKeyB d' i with
      | none => simp only [lookLoopB, if_pos hi, hk, hgk]
      | some ki =>
        simp only [lookLoopB, if_pos hi, hk, hgk]
        cases hc : bytesCompare ki key with
        | lt =>
          simp only [hc]
          exact ih (i + 1) i (by omega)
        | eq => simp only [hc]
        | gt => simp only [hc]
    · simp only [lookLoopB, if_neg hi]

/-- C10 counterexample: a 4096-byte page whose stored offset for entry 1
is 60000.  `NKeys() = 2 ≥ 1`, yet the lookup does not return an index:
decoding key 1 reads at byte 60024, past the page, and the run aborts
with the slice-bounds panic. -/
theorem C10_counterexample :
    NKeys nodeCorrupt = 2 ∧ 0 < NKeys nodeCorrupt ∧
    NodeLookUpLEB nodeCorrupt [5] = none := by decide

/-- C10 (amended): on an empty node the lookup returns 0 without reading
any key; whenever `NKeys() ≥ 1` and every key the scan may read (indices
`1 .. NKeys()-1`) decodes within the 4096-byte page, it returns an index
strictly below `NKeys()`; and the result depends only on the key count
and the keys at indices `≥ 1` — the loop starts at index 1, so the
sentinel key at index 0 can never affect the result. -/
theorem C10_lookup_safety_amended :
    (∀ (d : Page) (key : List Nat), NKeys d = 0 → NodeLookUpLEB d key = some 0) ∧
    (∀ (d : Page) (key : List Nat), 0 < NKeys d →
      (∀ i, i < NKeys d → 1 ≤ i → (GetKeyB d i).isSome = true) →
      ∃ r, NodeLookUpLEB d key = some r ∧ r < NKeys d) ∧
    (∀ (d d' : Page) (key : List Nat), NKeys d' = NKeys d →
      (∀ i, i < NKeys d → 1 ≤ i → GetKeyB d i = GetKeyB d' i) →
      NodeLookUpLEB d key = NodeLookUpLEB d' key) := by
  refine ⟨?_, ?_, ?_⟩
  · intro d key h0
    show lookLoopB d key (NKeys d) 0 1 (NKeys d) = some 0
    rw [h0]
    rfl
  · intro d key h0 hread
    exact lookLoopB_total d key hread (NKeys d) 1 0 (by omega) h0
  · intro d d' key hnk hkeys
    show lookLoopB d key (NKeys d) 0 1 (NKeys d)
        = lookLoopB d' key (NKeys d') 0 1 (NKeys d')
    rw [hnk]
    exact lookLoopB_congr d d' key hkeys (NKeys d) 1 0 (by omega)

/-- C10 witness: the two-entry leaf has all scanned keys inside the page
and yields an in-range index, and the variant differing only in the
slot-0 record bytes agrees on every lookup. -/
theorem C10_lookup_amended_witness :
    (0 < NKeys nodeTwo ∧
      (∀ i, i < NKeys nodeTwo → 1 ≤ i → (GetKeyB nodeTwo i).isSome = true) ∧
      ∃ r, NodeLookUpLEB nodeTwo [15] = some r ∧ r < NKeys nodeTwo) ∧
    (NKeys nodeTwoB = NKeys nodeTwo ∧
      (∀ i, i < NKeys nodeTwo → 1 ≤ i → GetKeyB nodeTwo i = GetKeyB nodeTwoB i) ∧
      NodeLookUpLEB nodeTwo [15] = NodeLookUpLEB nodeTwoB [15]) :=
  ⟨⟨by decide, by decide,
    C10_lookup_safety_amended.2.1 nodeTwo [15] (by decide) (by decide)⟩,
    ⟨by decide, by decide,
      C10_lookup_safety_amended.2.2 nodeTwo nodeTwoB [15] (by decide) (by decide)⟩⟩

/-- Behaviour of the scan loop on a node with strictly ascending keys:
starting at slot `i` with `found = i - 1` and every earlier key strictly
below the target, it returns the largest in-range index whose key is
`≤ key` (0 acting as the always-matching sentinel). -/
theorem lookLoop_sorted (d : Page) (key : List Nat)
    (hs : ∀ i, i < NKeys d → ∀ j, j < NKeys d → i < j →
      bytesCompare (keyAt d i) (keyAt d j) = Ordering.lt) :
    ∀ (fuel i : Nat), 1 ≤ i → i ≤ NKeys d → NKeys d ≤ i + fuel →
    (∀ j, 1 ≤ j → j < i → bytesCompare (keyAt d j) key = Ordering.lt) →
    ∃ r, lookLoop d key (NKeys d) (i - 1) i fuel = some r ∧
      r < NKeys d ∧
      (r = 0 ∨ bytesCompare (keyAt d r) key ≠ Ordering.gt) ∧
      ∀ j, r < j → j < NKeys d → bytesCompare (keyAt d j) key = Ordering.gt := by
  intro fuel
  induction fuel with
  | zero =>
    intro i h1 h2 h3 hpre
    refine ⟨i - 1, rfl, by omega, ?_, ?_⟩
    · by_cases h0 : i - 1 = 0
      · exact Or.inl h0
      · right
        have := hpre (i - 1) (by omega) (by omega)
        simp [this]
    · intro j hj1 hj2
      exact absurd hj2 (by omega)
  | succ fuel ih =>
    intro i h1 h2 h3 hpre
    by_cases hi : i < NKeys d
    · have hki := GetKey_isSome d i (Nat.le_of_lt hi)
      simp only [lookLoop, if_pos hi, hki]
      cases hc : bytesCompare (keyAt d i) key with
      | lt =>
        have hpre' : ∀ j, 1 ≤ j → j < i + 1 →
            bytesCompare (keyAt d j) key = Ordering.lt := by
          intro j hj1 hj2
          by_cases hji : j < i
          · exact hpre j hj1 hji
          · have hj : j = i := by omega
            rw [hj]
            exact hc
        have := ih (i + 1) (by omega) (by omega) (by omega) hpre'
        simpa using this
      | eq =>
        refine ⟨i, rfl, hi, Or.inr (by simp [hc]), ?_⟩
        intro j hj1 hj2
        have hlt := hs i hi j hj2 hj1
        have hkey : keyAt d i = key := (bytesCompare_eq_iff _ _).mp hc
        rw [← hkey]
        exact (bytesCompare_lt_gt _ _).mp hlt
      | gt =>
        refine ⟨i - 1, rfl, by omega, ?_, ?_⟩
        · by_cases h0 : i - 1 = 0
          · exact Or.inl h0
          · right
            have := hpre (i - 1) (by omega) (by omega)
            simp [this]
        · intro j hj1 hj2
          by_cases hji : j = i
          · rw [hji]
            exact hc
          · have hij : i < j := by omega
            have hlt := hs i hi j hj2 hij
            have ha : bytesCompare key (keyAt d i) = Ordering.lt :=
              (bytesCompare_lt_gt _ _).mpr hc
            have hb : bytesCompare key (keyAt d j) = Ordering.lt :=
              bytesCompare_lt_trans _ _ _ ha hlt
            exact (bytesCompare_lt_gt _ _).mp hb
    · simp only [lookLoop, if_neg hi]
      refine ⟨i - 1, rfl, by omega, ?_, ?_⟩
      · by_cases h0 : i - 1 = 0
        · exact Or.inl h0
        · right
          have := hpre (i - 1) (by omega) (by omega)
          simp [this]
      · intro j hj1 hj2
        exact absurd hj2 (by omega)

/-- C4: on a node with strictly ascending keys, `NodeLookUpLE` returns
the largest index `i < key_count` whose key compares `≤ key`, and 0 when
no index in `[1, key_count)` does — index 0 is the lower sentinel that
always matches. -/
theorem C4_navigator (d : Page) (key : List Nat)
    (hs : ∀ i, i < NKeys d → ∀ j, j < NKeys d → i < j →
      bytesCompare (keyAt d i) (keyAt d j) = Ordering.lt) :
    ∃ r, NodeLookUpLE d key = some r ∧
      (0 < NKeys d → r < NKeys d) ∧
      (r = 0 ∨ bytesCompare (keyAt d r) key ≠ Ordering.gt) ∧
      ∀ j, r < j → j < NKeys d → bytesCompare (keyAt d j) key = Ordering.gt := by
  by_cases h0 : NKeys d = 0
  · refine ⟨0, ?_, by omega, Or.inl rfl, ?_⟩
    · show lookLoop d key (NKeys d) 0 1 (NKeys d) = some 0
      rw [h0]
      rfl
    · intro j hj1 hj2
      exact absurd hj2 (by omega)
  · obtain ⟨r, hr, hrlt, hdisj, hmax⟩ :=
      lookLoop_sorted d key hs (NKeys d) 1 (by omega) (by omega) (by omega)
        (fun j hj1 hj2 => absurd hj2 (by omega))
    exact ⟨r, hr, fun _ => hrlt, hdisj, hmax⟩

/-- C4 witness: on the three-entry leaf with keys `[10] < [20] < [30]`,
looking up `[20]` lands on the largest index whose key is `≤ [20]`. -/
theorem C4_navigator_witness :
    (∀ i, i < NKeys nodeThree → ∀ j, j < NKeys nodeThree → i < j →
      bytesCompare (keyAt nodeThree i) (keyAt nodeThree j) = Ordering.lt) ∧
    ∃ r, NodeLookUpLE nodeThree [20] = some r ∧
      (0 < NKeys nodeThree → r < NKeys nodeThree) ∧
      (r = 0 ∨ bytesCompare (keyAt nodeThree r) [20] ≠ Ordering.gt) ∧
      ∀ j, r < j → j < NKeys nodeThree →
        bytesCompare (keyAt nodeThree j) [20] = Ordering.gt :=
  ⟨by decide, C4_navigator nodeThree [20] (by decide)⟩

set_option maxHeartbeats 2000000 in
/-- C7: with a valid slot (`idx < key_count` of the destination) and
capacity for the record, `NodeAppendKV` writes the child pointer at slot
`idx`, then `key_len`, `val_len`, the key bytes and the value bytes at
`kv_pos(idx)` (so `GetKey`/`GetVal` decode them back exactly), and sets
`offset(idx+1) = offset(idx) + 4 + len(key) + len(val)` as a `uint16`. -/
theorem C7_appendKV (m : Mem) (idx ptr : Nat) (key val : List Nat)
    (hidx : idx < NKeys m.newD)
    (hcap : 4 + 10 * NKeys m.newD + (GetOffset m.newD idx).getD 0
        + 4 + key.length + val.length < 65536)
    (hkey : ∀ b ∈ key, b < 256) (hval : ∀ b ∈ val, b < 256) :
    ∃ m', NodeAppendKV m idx ptr key val = some m' ∧
      NKeys m'.newD = NKeys m.newD ∧
      GetPtr m'.newD idx = some (ptr % 18446744073709551616) ∧
      GetKey m'.newD idx = some key ∧
      GetVal m'.newD idx = some val ∧
      GetOffset m'.newD (idx + 1) =
        some (((GetOffset m.newD idx).getD 0 + 4 + key.length + val.length) % 65536) := by
  obtain ⟨off, hoff, hofflt⟩ := GetOffset_isSome m.newD idx (Nat.le_of_lt hidx)
  simp only [hoff, Option.getD_some] at hcap ⊢
  have e6 : u16 (4 + 8 * idx) = 4 + 8 * idx := u16_eq_self _ (by omega)
  have eKL : u16 key.length = key.length := u16_eq_self _ (by omega)
  have eVL : u16 val.length = val.length := u16_eq_self _ (by omega)
  have eQ2 : u16 (4 + 10 * NKeys m.newD + off + 2) = 4 + 10 * NKeys m.newD + off + 2 := u16_eq_self _ (by omega)
  have eQ4 : u16 (4 + 10 * NKeys m.newD + off + 4) = 4 + 10 * NKeys m.newD + off + 4 := u16_eq_self _ (by omega)
  have eQ5 : u16 (4 + 10 * NKeys m.newD + off + 4 + key.length) = 4 + 10 * NKeys m.newD + off + 4 + key.length :=
    u16_eq_self _ (by omega)
  have hsp : SetPtr m.newD idx ptr = some (putN m.newD (4 + 8 * idx) ptr 8) := by
    unfold SetPtr
    rw [if_pos hidx, e6]
    rfl
  have hgo0 : GetOffset (putN m.newD (4 + 8 * idx) ptr 8) idx = some off := by
    rw [GetOffset_congr (putN m.newD (4 + 8 * idx) ptr 8) m.newD idx
        (NKeys_putN _ _ _ _ (by omega)) (by omega) (Nat.le_of_lt hidx)
        (fun q hq1 hq2 => putN_out _ _ _ _ _ (by omega)), hoff]
  have hkv0 : KVPos (putN m.newD (4 + 8 * idx) ptr 8) idx = some (4 + 10 * NKeys m.newD + off) := by
    have h := KVPos_eq (putN m.newD (4 + 8 * idx) ptr 8) idx
      (by rw [NKeys_putN _ _ _ _ (by omega)]; omega) off hgo0
    rw [NKeys_putN _ _ _ _ (by omega)] at h
    rw [h, u16_eq_self _ (by omega)]
  have hnk4 : NKeys (copyList (copyList (putN (putN (putN m.newD (4 + 8 * idx) ptr 8) (4 + 10 * NKeys m.newD + off) key.length 2) (4 + 10 * NKeys m.newD + off + 2) val.length 2) (4 + 10 * NKeys m.newD + off + 4) key) (4 + 10 * NKeys m.newD + off + 4 + key.length) val) = NKeys m.newD := by
    rw [NKeys_copyList _ _ _ (by omega), NKeys_copyList _ _ _ (by omega),
      NKeys_putN _ _ _ _ (by omega), NKeys_putN _ _ _ _ (by omega),
      NKeys_putN _ _ _ _ (by omega)]
  have hnk5 : NKeys (putN (copyList (copyList (putN (putN (putN m.newD (4 + 8 * idx) ptr 8) (4 + 10 * NKeys m.newD + off) key.length 2) (4 + 10 * NKeys m.newD + off + 2) val.length 2) (4 + 10 * NKeys m.newD + off + 4) key) (4 + 10 * NKeys m.newD + off + 4 + key.length) val) (4 + 8 * NKeys m.newD + 2 * idx) ((off + 4 + key.length + val.length) % 65536) 2) = NKeys m.newD := by
    rw [NKeys_putN _ _ _ _ (by omega), hnk4]
  have hgo4 : GetOffset (copyList (copyList (putN (putN (putN m.newD (4 + 8 * idx) ptr 8) (4 + 10 * NKeys m.newD + off) key.length 2) (4 + 10 * NKeys m.newD + off + 2) val.length 2) (4 + 10 * NKeys m.newD + off + 4) key) (4 + 10 * NKeys m.newD + off + 4 + key.length) val) idx = some off := by
    rw [GetOffset_congr (copyList (copyList (putN (putN (putN m.newD (4 + 8 * idx) ptr 8) (4 + 10 * NKeys m.newD + off) key.length 2) (4 + 10 * NKeys m.newD + off + 2) val.length 2) (4 + 10 * NKeys m.newD + off + 4) key) (4 + 10 * NKeys m.newD + off + 4 + key.length) val) m.newD idx hnk4 (by omega) (Nat.le_of_lt hidx)
      (fun q hq1 hq2 => by
        rw [copyList_out _ _ _ _ (by omega), copyList_out _ _ _ _ (by omega),
          putN_out _ _ _ _ _ (by omega), putN_out _ _ _ _ _ (by omega),
          putN_out _ _ _ _ _ (by omega)]), hoff]
  have eI1 : add16 idx 1 = idx + 1 := by unfold add16; omega
  have hop : OffsetPos (copyList (copyList (putN (putN (putN m.newD (4 + 8 * idx) ptr 8) (4 + 10 * NKeys m.newD + off) key.length 2) (4 + 10 * NKeys m.newD + off + 2) val.length 2) (4 + 10 * NKeys m.newD + off + 4) key) (4 + 10 * NKeys m.newD + off + 4 + key.length) val) (idx + 1) = some (4 + 8 * NKeys m.newD + 2 * idx) := by
    unfold OffsetPos
    rw [hnk4, if_pos (And.intro (by omega) (by omega)),
      show 2 * (idx + 1 - 1) = 2 * idx from by omega, u16_eq_self _ (by omega)]
  have hso : SetOffset (copyList (copyList (putN (putN (putN m.newD (4 + 8 * idx) ptr 8) (4 + 10 * NKeys m.newD + off) key.length 2) (4 + 10 * NKeys m.newD + off + 2) val.length 2) (4 + 10 * NKeys m.newD + off + 4) key) (4 + 10 * NKeys m.newD + off + 4 + key.length) val) (add16 idx 1)
      (add16 (add16 off 4) (u16 (key.length + val.length))) = some (putN (copyList (copyList (putN (putN (putN m.newD (4 + 8 * idx) ptr 8) (4 + 10 * NKeys m.newD + off) key.length 2) (4 + 10 * NKeys m.newD + off + 2) val.length 2) (4 + 10 * NKeys m.newD + off + 4) key) (4 + 10 * NKeys m.newD + off + 4 + key.length) val) (4 + 8 * NKeys m.newD + 2 * idx) ((off + 4 + key.length + val.length) % 65536) 2) := by
    rw [eI1]
    unfold SetOffset
    rw [hop, show add16 (add16 off 4) (u16 (key.length + val.length))
        = (off + 4 + key.length + val.length) % 65536 from by unfold add16 u16; omega]
    rfl
  have heq : NodeAppendKV m idx ptr key val = some { m with newD := putN (copyList (copyList (putN (putN (putN m.newD (4 + 8 * idx) ptr 8) (4 + 10 * NKeys m.newD + off) key.length 2) (4 + 10 * NKeys m.newD + off + 2) val.length 2) (4 + 10 * NKeys m.newD + off + 4) key) (4 + 10 * NKeys m.newD + off + 4 + key.length) val) (4 + 8 * NKeys m.newD + 2 * idx) ((off + 4 + key.length + val.length) % 65536) 2 } := by
    simp only [NodeAppendKV, hsp, hkv0, putU16, eKL, eVL, eQ2, eQ4, eQ5, hgo4, hso]
  have hgo5 : GetOffset (putN (copyList (copyList (putN (putN (putN m.newD (4 + 8 * idx) ptr 8) (4 + 10 * NKeys m.newD + off) key.length 2) (4 + 10 * NKeys m.newD + off + 2) val.length 2) (4 + 10 * NKeys m.newD + off + 4) key) (4 + 10 * NKeys m.newD + off + 4 + key.length) val) (4 + 8 * NKeys m.newD + 2 * idx) ((off + 4 + key.length + val.length) % 65536) 2) idx = some off := by
    rw [GetOffset_congr (putN (copyList (copyList (putN (putN (putN m.newD (4 + 8 * idx) ptr 8) (4 + 10 * NKeys m.newD + off) key.length 2) (4 + 10 * NKeys m.newD + off + 2) val.length 2) (4 + 10 * NKeys m.newD + off + 4) key) (4 + 10 * NKeys m.newD + off + 4 + key.length) val) (4 + 8 * NKeys m.newD + 2 * idx) ((off + 4 + key.length + val.length) % 65536) 2) (copyList (copyList (putN (putN (putN m.newD (4 + 8 * idx) ptr 8) (4 + 10 * NKeys m.newD + off) key.length 2) (4 + 10 * NKeys m.newD + off + 2) val.length 2) (4 + 10 * NKeys m.newD + off + 4) key) (4 + 10 * NKeys m.newD + off + 4 + key.length) val) idx (by rw [hnk5, hnk4])
      (by rw [hnk4]; omega) (by rw [hnk4]; exact Nat.le_of_lt hidx)
      (fun q hq1 hq2 => by
        rw [hnk4] at hq1 hq2
        exact putN_out _ _ _ _ _ (by omega)), hgo4]
  have hkv5 : KVPos (putN (copyList (copyList (putN (putN (putN m.newD (4 + 8 * idx) ptr 8) (4 + 10 * NKeys m.newD + off) key.length 2) (4 + 10 * NKeys m.newD + off + 2) val.length 2) (4 + 10 * NKeys m.newD + off + 4) key) (4 + 10 * NKeys m.newD + off + 4 + key.length) val) (4 + 8 * NKeys m.newD + 2 * idx) ((off + 4 + key.length + val.length) % 65536) 2) idx = some (4 + 10 * NKeys m.newD + off) := by
    have h := KVPos_eq (putN (copyList (copyList (putN (putN (putN m.newD (4 + 8 * idx) ptr 8) (4 + 10 * NKeys m.newD + off) key.length 2) (4 + 10 * NKeys m.newD + off + 2) val.length 2) (4 + 10 * NKeys m.newD + off + 4) key) (4 + 10 * NKeys m.newD + off + 4 + key.length) val) (4 + 8 * NKeys m.newD + 2 * idx) ((off + 4 + key.length + val.length) % 65536) 2) idx (by rw [hnk5]; omega) off hgo5
    rw [hnk5] at h
    rw [h, u16_eq_self _ (by omega)]
  have hle5 : idx ≤ NKeys (putN (copyList (copyList (putN (putN (putN m.newD (4 + 8 * idx) ptr 8) (4 + 10 * NKeys m.newD + off) key.length 2) (4 + 10 * NKeys m.newD + off + 2) val.length 2) (4 + 10 * NKeys m.newD + off + 4) key) (4 + 10 * NKeys m.newD + off + 4 + key.length) val) (4 + 8 * NKeys m.newD + 2 * idx) ((off + 4 + key.length + val.length) % 65536) 2) := by
    rw [hnk5]
    omega
  have hF4 : readU16 (putN (copyList (copyList (putN (putN (putN m.newD (4 + 8 * idx) ptr 8) (4 + 10 * NKeys m.newD + off) key.length 2) (4 + 10 * NKeys m.newD + off + 2) val.length 2) (4 + 10 * NKeys m.newD + off + 4) key) (4 + 10 * NKeys m.newD + off + 4 + key.length) val) (4 + 8 * NKeys m.newD + 2 * idx) ((off + 4 + key.length + val.length) % 65536) 2) (4 + 10 * NKeys m.newD + off) = key.length := by
    show readN (putN (copyList (copyList (putN (putN (putN m.newD (4 + 8 * idx) ptr 8) (4 + 10 * NKeys m.newD + off) key.length 2) (4 + 10 * NKeys m.newD + off + 2) val.length 2) (4 + 10 * NKeys m.newD + off + 4) key) (4 + 10 * NKeys m.newD + off + 4 + key.length) val) (4 + 8 * NKeys m.newD + 2 * idx) ((off + 4 + key.length + val.length) % 65536) 2) (4 + 10 * NKeys m.newD + off) 2 = key.length
    rw [readN_putN_out 2 2 (copyList (copyList (putN (putN (putN m.newD (4 + 8 * idx) ptr 8) (4 + 10 * NKeys m.newD + off) key.length 2) (4 + 10 * NKeys m.newD + off + 2) val.length 2) (4 + 10 * NKeys m.newD + off + 4) key) (4 + 10 * NKeys m.newD + off + 4 + key.length) val) (4 + 8 * NKeys m.newD + 2 * idx) ((off + 4 + key.length + val.length) % 65536) (4 + 10 * NKeys m.newD + off) (by omega),
      readN_copyList_out 2 val (copyList (putN (putN (putN m.newD (4 + 8 * idx) ptr 8) (4 + 10 * NKeys m.newD + off) key.length 2) (4 + 10 * NKeys m.newD + off + 2) val.length 2) (4 + 10 * NKeys m.newD + off + 4) key) (4 + 10 * NKeys m.newD + off + 4 + key.length) (4 + 10 * NKeys m.newD + off) (by omega),
      readN_copyList_out 2 key (putN (putN (putN m.newD (4 + 8 * idx) ptr 8) (4 + 10 * NKeys m.newD + off) key.length 2) (4 + 10 * NKeys m.newD + off + 2) val.length 2) (4 + 10 * NKeys m.newD + off + 4) (4 + 10 * NKeys m.newD + off) (by omega),
      readN_putN_out 2 2 (putN (putN m.newD (4 + 8 * idx) ptr 8) (4 + 10 * NKeys m.newD + off) key.length 2) (4 + 10 * NKeys m.newD + off + 2) val.length (4 + 10 * NKeys m.newD + off) (by omega)]
    have h := readN_putN_same 2 (putN m.newD (4 + 8 * idx) ptr 8) (4 + 10 * NKeys m.newD + off) key.length
    norm_num at h
    rw [h]
    omega
  have hF5 : readU16 (putN (copyList (copyList (putN (putN (putN m.newD (4 + 8 * idx) ptr 8) (4 + 10 * NKeys m.newD + off) key.length 2) (4 + 10 * NKeys m.newD + off + 2) val.length 2) (4 + 10 * NKeys m.newD + off + 4) key) (4 + 10 * NKeys m.newD + off + 4 + key.length) val) (4 + 8 * NKeys m.newD + 2 * idx) ((off + 4 + key.length + val.length) % 65536) 2) (u16 (4 + 10 * NKeys m.newD + off + 2)) = val.length := by
    rw [eQ2]
    show readN (putN (copyList (copyList (putN (putN (putN m.newD (4 + 8 * idx) ptr 8) (4 + 10 * NKeys m.newD + off) key.length 2) (4 + 10 * NKeys m.newD + off + 2) val.length 2) (4 + 10 * NKeys m.newD + off + 4) key) (4 + 10 * NKeys m.newD + off + 4 + key.length) val) (4 + 8 * NKeys m.newD + 2 * idx) ((off + 4 + key.length + val.length) % 65536) 2) (4 + 10 * NKeys m.newD + off + 2) 2 = val.length
    rw [readN_putN_out 2 2 (copyList (copyList (putN (putN (putN m.newD (4 + 8 * idx) ptr 8) (4 + 10 * NKeys m.newD + off) key.length 2) (4 + 10 * NKeys m.newD + off + 2) val.length 2) (4 + 10 * NKeys m.newD + off + 4) key) (4 + 10 * NKeys m.newD + off + 4 + key.length) val) (4 + 8 * NKeys m.newD + 2 * idx) ((off + 4 + key.length + val.length) % 65536) (4 + 10 * NKeys m.newD + off + 2) (by omega),
      readN_copyList_out 2 val (copyList (putN (putN (putN m.newD (4 + 8 * idx) ptr 8) (4 + 10 * NKeys m.newD + off) key.length 2) (4 + 10 * NKeys m.newD + off + 2) val.length 2) (4 + 10 * NKeys m.newD + off + 4) key) (4 + 10 * NKeys m.newD + off + 4 + key.length) (4 + 10 * NKeys m.newD + off + 2) (by omega),
      readN_copyList_out 2 key (putN (putN (putN m.newD (4 + 8 * idx) ptr 8) (4 + 10 * NKeys m.newD + off) key.length 2) (4 + 10 * NKeys m.newD + off + 2) val.length 2) (4 + 10 * NKeys m.newD + off + 4) (4 + 10 * NKeys m.newD + off + 2) (by omega)]
    have h := readN_putN_same 2 (putN (putN m.newD (4 + 8 * idx) ptr 8) (4 + 10 * NKeys m.newD + off) key.length 2) (4 + 10 * NKeys m.newD + off + 2) val.length
    norm_num at h
    rw [h]
    omega
  have hF6 : ∀ j, j < key.length →
      (putN (copyList (copyList (putN (putN (putN m.newD (4 + 8 * idx) ptr 8) (4 + 10 * NKeys m.newD + off) key.length 2) (4 + 10 * NKeys m.newD + off + 2) val.length 2) (4 + 10 * NKeys m.newD + off + 4) key) (4 + 10 * NKeys m.newD + off + 4 + key.length) val) (4 + 8 * NKeys m.newD + 2 * idx) ((off + 4 + key.length + val.length) % 65536) 2) (4 + 10 * NKeys m.newD + off + 4 + j) % 256 = key.getD j 0 := by
    intro j hj
    rw [putN_out _ _ _ _ _ (by omega), copyList_out _ _ _ _ (by omega),
      copyList_in key (putN (putN (putN m.newD (4 + 8 * idx) ptr 8) (4 + 10 * NKeys m.newD + off) key.length 2) (4 + 10 * NKeys m.newD + off + 2) val.length 2) (4 + 10 * NKeys m.newD + off + 4) j hj]
    have hmem : key.getD j 0 ∈ key := by
      rw [List.getD_eq_getElem _ _ hj]
      exact List.getElem_mem _
    have := hkey _ hmem
    omega
  have hF7 : ∀ j, j < val.length →
      (putN (copyList (copyList (putN (putN (putN m.newD (4 + 8 * idx) ptr 8) (4 + 10 * NKeys m.newD + off) key.length 2) (4 + 10 * NKeys m.newD + off + 2) val.length 2) (4 + 10 * NKeys m.newD + off + 4) key) (4 + 10 * NKeys m.newD + off + 4 + key.length) val) (4 + 8 * NKeys m.newD + 2 * idx) ((off + 4 + key.length + val.length) % 65536) 2) (4 + 10 * NKeys m.newD + off + 4 + key.length + j) % 256 = val.getD j 0 := by
    intro j hj
    rw [putN_out _ _ _ _ _ (by omega),
      copyList_in val (copyList (putN (putN (putN m.newD (4 + 8 * idx) ptr 8) (4 + 10 * NKeys m.newD + off) key.length 2) (4 + 10 * NKeys m.newD + off + 2) val.length 2) (4 + 10 * NKeys m.newD + off + 4) key) (4 + 10 * NKeys m.newD + off + 4 + key.length) j hj]
    have hmem : val.getD j 0 ∈ val := by
      rw [List.getD_eq_getElem _ _ hj]
      exact List.getElem_mem _
    have := hval _ hmem
    omega
  have hPtr : GetPtr (putN (copyList (copyList (putN (putN (putN m.newD (4 + 8 * idx) ptr 8) (4 + 10 * NKeys m.newD + off) key.length 2) (4 + 10 * NKeys m.newD + off + 2) val.length 2) (4 + 10 * NKeys m.newD + off + 4) key) (4 + 10 * NKeys m.newD + off + 4 + key.length) val) (4 + 8 * NKeys m.newD + 2 * idx) ((off + 4 + key.length + val.length) % 65536) 2) idx = some (ptr % 18446744073709551616) := by
    rw [GetPtr_eq (putN (copyList (copyList (putN (putN (putN m.newD (4 + 8 * idx) ptr 8) (4 + 10 * NKeys m.newD + off) key.length 2) (4 + 10 * NKeys m.newD + off + 2) val.length 2) (4 + 10 * NKeys m.newD + off + 4) key) (4 + 10 * NKeys m.newD + off + 4 + key.length) val) (4 + 8 * NKeys m.newD + 2 * idx) ((off + 4 + key.length + val.length) % 65536) 2) idx (by rw [hnk5]; omega) (by omega)]
    refine congrArg some ?_
    rw [readN_putN_out 8 2 (copyList (copyList (putN (putN (putN m.newD (4 + 8 * idx) ptr 8) (4 + 10 * NKeys m.newD + off) key.length 2) (4 + 10 * NKeys m.newD + off + 2) val.length 2) (4 + 10 * NKeys m.newD + off + 4) key) (4 + 10 * NKeys m.newD + off + 4 + key.length) val) (4 + 8 * NKeys m.newD + 2 * idx) ((off + 4 + key.length + val.length) % 65536) (4 + 8 * idx) (by omega),
      readN_copyList_out 8 val (copyList (putN (putN (putN m.newD (4 + 8 * idx) ptr 8) (4 + 10 * NKeys m.newD + off) key.length 2) (4 + 10 * NKeys m.newD + off + 2) val.length 2) (4 + 10 * NKeys m.newD + off + 4) key) (4 + 10 * NKeys m.newD + off + 4 + key.length) (4 + 8 * idx) (by omega),
      readN_copyList_out 8 key (putN (putN (putN m.newD (4 + 8 * idx) ptr 8) (4 + 10 * NKeys m.newD + off) key.length 2) (4 + 10 * NKeys m.newD + off + 2) val.length 2) (4 + 10 * NKeys m.newD + off + 4) (4 + 8 * idx) (by omega),
      readN_putN_out 8 2 (putN (putN m.newD (4 + 8 * idx) ptr 8) (4 + 10 * NKeys m.newD + off) key.length 2) (4 + 10 * NKeys m.newD + off + 2) val.length (4 + 8 * idx) (by omega),
      readN_putN_out 8 2 (putN m.newD (4 + 8 * idx) ptr 8) (4 + 10 * NKeys m.newD + off) key.length (4 + 8 * idx) (by omega)]
    have h := readN_putN_same 8 m.newD (4 + 8 * idx) ptr
    norm_num at h
    rw [h]
  have cKey : GetKey (putN (copyList (copyList (putN (putN (putN m.newD (4 + 8 * idx) ptr 8) (4 + 10 * NKeys m.newD + off) key.length 2) (4 + 10 * NKeys m.newD + off + 2) val.length 2) (4 + 10 * NKeys m.newD + off + 4) key) (4 + 10 * NKeys m.newD + off + 4 + key.length) val) (4 + 8 * NKeys m.newD + 2 * idx) ((off + 4 + key.length + val.length) % 65536) 2) idx = some key := by
    unfold GetKey
    rw [if_pos hle5, hkv5]
    simp only [Option.map_some']
    rw [hF4]
    simp only [eQ4]
    refine congrArg some ?_
    rw [List.map_congr_left (fun j hj => hF6 j (List.mem_range.mp hj)),
      range_map_getD]
  have cVal : GetVal (putN (copyList (copyList (putN (putN (putN m.newD (4 + 8 * idx) ptr 8) (4 + 10 * NKeys m.newD + off) key.length 2) (4 + 10 * NKeys m.newD + off + 2) val.length 2) (4 + 10 * NKeys m.newD + off + 4) key) (4 + 10 * NKeys m.newD + off + 4 + key.length) val) (4 + 8 * NKeys m.newD + 2 * idx) ((off + 4 + key.length + val.length) % 65536) 2) idx = some val := by
    unfold GetVal
    rw [if_pos hle5, hkv5]
    simp only [Option.map_some']
    rw [hF5]
    simp only [hF4, eQ5]
    refine congrArg some ?_
    rw [List.map_congr_left (fun j hj => hF7 j (List.mem_range.mp hj)),
      range_map_getD]
  have cOff : GetOffset (putN (copyList (copyList (putN (putN (putN m.newD (4 + 8 * idx) ptr 8) (4 + 10 * NKeys m.newD + off) key.length 2) (4 + 10 * NKeys m.newD + off + 2) val.length 2) (4 + 10 * NKeys m.newD + off + 4) key) (4 + 10 * NKeys m.newD + off + 4 + key.length) val) (4 + 8 * NKeys m.newD + 2 * idx) ((off + 4 + key.length + val.length) % 65536) 2) (idx + 1)
      = some ((off + 4 + key.length + val.length) % 65536) := by
    rw [GetOffset_pos (putN (copyList (copyList (putN (putN (putN m.newD (4 + 8 * idx) ptr 8) (4 + 10 * NKeys m.newD + off) key.length 2) (4 + 10 * NKeys m.newD + off + 2) val.length 2) (4 + 10 * NKeys m.newD + off + 4) key) (4 + 10 * NKeys m.newD + off + 4 + key.length) val) (4 + 8 * NKeys m.newD + 2 * idx) ((off + 4 + key.length + val.length) % 65536) 2) (idx + 1) (by omega) (by rw [hnk5]; omega)
      (by rw [hnk5]; omega), hnk5,
      show 4 + 8 * NKeys m.newD + 2 * (idx + 1 - 1)
        = 4 + 8 * NKeys m.newD + 2 * idx from by omega]
    have h := readN_putN_same 2 (copyList (copyList (putN (putN (putN m.newD (4 + 8 * idx) ptr 8) (4 + 10 * NKeys m.newD + off) key.length 2) (4 + 10 * NKeys m.newD + off + 2) val.length 2) (4 + 10 * NKeys m.newD + off + 4) key) (4 + 10 * NKeys m.newD + off + 4 + key.length) val) (4 + 8 * NKeys m.newD + 2 * idx) ((off + 4 + key.length + val.length) % 65536)
    norm_num at h
    show some (readN (putN (copyList (copyList (putN (putN (putN m.newD (4 + 8 * idx) ptr 8) (4 + 10 * NKeys m.newD + off) key.length 2) (4 + 10 * NKeys m.newD + off + 2) val.length 2) (4 + 10 * NKeys m.newD + off + 4) key) (4 + 10 * NKeys m.newD + off + 4 + key.length) val) (4 + 8 * NKeys m.newD + 2 * idx) ((off + 4 + key.length + val.length) % 65536) 2) (4 + 8 * NKeys m.newD + 2 * idx) 2) = _
    rw [h]
  exact ⟨{ m with newD := putN (copyList (copyList (putN (putN (putN m.newD (4 + 8 * idx) ptr 8) (4 + 10 * NKeys m.newD + off) key.length 2) (4 + 10 * NKeys m.newD + off + 2) val.length 2) (4 + 10 * NKeys m.newD + off + 4) key) (4 + 10 * NKeys m.newD + off + 4 + key.length) val) (4 + 8 * NKeys m.newD + 2 * idx) ((off + 4 + key.length + val.length) % 65536) 2 }, heq, hnk5, hPtr, cKey, cVal, cOff⟩

/-- C7 witness: appending `([7], [8,9])` with pointer 77 at slot 0 of a
fresh one-slot page round-trips all fields. -/
theorem C7_appendKV_witness :
    0 < NKeys memC7.newD ∧
    ∃ m', NodeAppendKV memC7 0 77 [7] [8, 9] = some m' ∧
      NKeys m'.newD = NKeys memC7.newD ∧
      GetPtr m'.newD 0 = some (77 % 18446744073709551616) ∧
      GetKey m'.newD 0 = some [7] ∧
      GetVal m'.newD 0 = some [8, 9] ∧
      GetOffset m'.newD (0 + 1) =
        some (((GetOffset memC7.newD 0).getD 0 + 4
          + [7].length + [8, 9].length) % 65536) :=
  ⟨by decide, C7_appendKV memC7 0 77 [7] [8, 9] (by decide) (by decide)
    (by decide) (by decide)⟩


/-- A `uint16` subtraction result is always below `65536`. -/
theorem sub16_lt (a b : Nat) : sub16 a b < 65536 := by
  unfold sub16
  exact Nat.mod_lt _ (by omega)

theorem readN_copyBytes_out (kr k : Nat) (dst : Page) (pos : Nat) (src : Page)
    (b q : Nat) (h : q + kr ≤ pos ∨ pos + k ≤ q) :
    readN (copyBytes dst pos src b k) q kr = readN dst q kr := by
  apply readN_ext
  intro j hj
  exact copyBytes_out _ _ _ _ _ _ (by omega)

/-- Behaviour of the pointer-copy loop of `NodeAppendRange`: it succeeds,
touches only the pointer slots `dst+i .. dst+i+fuel-1` of the destination,
and afterwards each copied slot holds the source pointer bytes. -/
theorem ptrLoop_spec (dst src : Nat) : ∀ (fuel i : Nat) (dnew dold : Page),
    dst + i + fuel ≤ NKeys dnew →
    src + i + fuel ≤ NKeys dold →
    4 + 10 * NKeys dnew < 65536 →
    4 + 10 * NKeys dold < 65536 →
    ∃ d', ptrLoop dst src i fuel ⟨dnew, dold⟩ = some ⟨d', dold⟩ ∧
      NKeys d' = NKeys dnew ∧
      (∀ q, q < 4 + 8 * (dst + i) ∨ 4 + 8 * (dst + i + fuel) ≤ q → d' q = dnew q) ∧
      (∀ j, i ≤ j → j < i + fuel →
        readN d' (4 + 8 * (dst + j)) 8 = readN dold (4 + 8 * (src + j)) 8) := by
  intro fuel
  induction fuel with
  | zero =>
    intro i dnew dold h1 h2 h3 h4
    exact ⟨dnew, rfl, rfl, fun q _ => rfl, fun j hj1 hj2 => absurd hj2 (by omega)⟩
  | succ fuel ih =>
    intro i dnew dold h1 h2 h3 h4
    have hki : GetPtr dold (u16 (src + i)) = some (readN dold (4 + 8 * (src + i)) 8) := by
      rw [u16_eq_self _ (by omega)]
      exact GetPtr_eq dold (src + i) (by omega) (by omega)
    have hsp : SetPtr dnew (u16 (dst + i)) (readN dold (4 + 8 * (src + i)) 8)
        = some (putN dnew (4 + 8 * (dst + i)) (readN dold (4 + 8 * (src + i)) 8) 8) := by
      rw [u16_eq_self _ (by omega)]
      unfold SetPtr
      rw [if_pos (by omega : dst + i < NKeys dnew), u16_eq_self _ (by omega)]
      rfl
    simp only [ptrLoop, hki, hsp]
    obtain ⟨d', hm', hnk, hout, hread⟩ :=
      ih (i + 1) (putN dnew (4 + 8 * (dst + i)) (readN dold (4 + 8 * (src + i)) 8) 8) dold
        (by rw [NKeys_putN _ _ _ _ (by omega)]; omega)
        (by omega)
        (by rw [NKeys_putN _ _ _ _ (by omega)]; omega)
        h4
    refine ⟨d', hm', ?_, ?_, ?_⟩
    · rw [hnk, NKeys_putN _ _ _ _ (by omega)]
    · intro q hq
      have h' := hout q (by omega)
      rw [h']
      exact putN_out _ _ _ _ _ (by omega)
    · intro j hj1 hj2
      by_cases hji : i + 1 ≤ j
      · exact hread j hji (by omega)
      · have hj : j = i := by omega
        subst hj
        rw [readN_ext 8 d' _ _ (fun q2 hq2 => hout _ (Or.inl (by omega))),
          readN_putN_same]
        exact Nat.mod_eq_of_lt (readN_lt _ _ _)

/-- Behaviour of the offset-copy loop of `NodeAppendRange`: it succeeds,
touches only offset slots `dst+i .. dst+i+fuel-1` of the destination, and
each copied slot holds `dstBegin + (old offset - srcBegin)` as computed in
`uint16` arithmetic. -/
theorem offLoop_spec (dst src dB sB : Nat) : ∀ (fuel i : Nat) (dnew dold : Page),
    1 ≤ i →
    dst + i + fuel ≤ NKeys dnew + 1 →
    src + i + fuel ≤ NKeys dold + 1 →
    4 + 10 * NKeys dnew < 65536 →
    4 + 10 * NKeys dold < 65536 →
    ∃ d', offLoop dst src dB sB i fuel ⟨dnew, dold⟩ = some ⟨d', dold⟩ ∧
      NKeys d' = NKeys dnew ∧
      (∀ q, q < 4 + 8 * NKeys dnew + 2 * (dst + i - 1) ∨
          4 + 8 * NKeys dnew + 2 * (dst + i - 1 + fuel) ≤ q → d' q = dnew q) ∧
      (∀ j, i ≤ j → j < i + fuel →
        readN d' (4 + 8 * NKeys dnew + 2 * (dst + j - 1)) 2
          = sub16 (add16 dB ((GetOffset dold (src + j)).getD 0)) sB) := by
  intro fuel
  induction fuel with
  | zero =>
    intro i dnew dold h0 h1 h2 h3 h4
    exact ⟨dnew, rfl, rfl, fun q _ => rfl, fun j hj1 hj2 => absurd hj2 (by omega)⟩
  | succ fuel ih =>
    intro i dnew dold h0 h1 h2 h3 h4
    obtain ⟨o, ho, holt⟩ := GetOffset_isSome dold (src + i) (by omega)
    have hgo : GetOffset dold (u16 (src + i)) = some o := by
      rw [u16_eq_self _ (by omega)]
      exact ho
    have hso : SetOffset dnew (u16 (dst + i)) (sub16 (add16 dB o) sB)
        = some (putN dnew (4 + 8 * NKeys dnew + 2 * (dst + i - 1))
            (sub16 (add16 dB o) sB) 2) := by
      rw [u16_eq_self _ (by omega)]
      unfold SetOffset OffsetPos
      rw [if_pos (And.intro (by omega) (by omega : dst + i ≤ NKeys dnew)),
        u16_eq_self _ (by omega)]
      rfl
    simp only [offLoop, hgo, hso]
    obtain ⟨d', hm', hnk, hout, hread⟩ :=
      ih (i + 1)
        (putN dnew (4 + 8 * NKeys dnew + 2 * (dst + i - 1)) (sub16 (add16 dB o) sB) 2)
        dold (by omega)
        (by rw [NKeys_putN _ _ _ _ (by omega)]; omega)
        (by omega)
        (by rw [NKeys_putN _ _ _ _ (by omega)]; omega)
        h4
    rw [NKeys_putN _ _ _ _ (by omega)] at hnk hout hread
    refine ⟨d', hm', by rw [hnk], ?_, ?_⟩
    · intro q hq
      have h' := hout q (by omega)
      rw [h']
      exact putN_out _ _ _ _ _ (by omega)
    · intro j hj1 hj2
      by_cases hji : i + 1 ≤ j
      · exact hread j hji (by omega)
      · have hj : j = i := by omega
        subst hj
        rw [readN_ext 2 d' _ _ (fun q2 hq2 => hout _ (Or.inl (by omega))),
          readN_putN_same]
        simp only [ho, Option.getD_some]
        have := sub16_lt (add16 dB o) sB
        have h2exp : (256 : Nat) ^ 2 = 65536 := by norm_num
        rw [h2exp]
        omega

set_option maxHeartbeats 1000000 in
/-- C6: under the asserted preconditions (`src+n ≤ old.key_count`,
`dst+n ≤ new.key_count`), monotone source offsets and no `uint16`
overflow, `NodeAppendRange` succeeds and copies `n` consecutive entries:
each destination offset is re-based as
`new.offset(dst) + (old.offset(src+i) - old.offset(src))`, each pointer is
copied, and the raw record bytes are copied to the destination cursor;
with `n = 0` it is a complete no-op returning the state unchanged. -/
theorem C6_appendRange (m : Mem) (dst src n : Nat)
    (h1 : src + n ≤ NKeys m.oldD)
    (h2 : dst + n ≤ NKeys m.newD)
    (hwN : 4 + 10 * NKeys m.newD + (GetOffset m.newD dst).getD 0
      + ((GetOffset m.oldD (src + n)).getD 0 - (GetOffset m.oldD src).getD 0) < 65536)
    (hwO : 4 + 10 * NKeys m.oldD + (GetOffset m.oldD (src + n)).getD 0 < 65536)
    (hmono : ∀ j, j ≤ n → ∀ i, i ≤ j →
      (GetOffset m.oldD (src + i)).getD 0 ≤ (GetOffset m.oldD (src + j)).getD 0) :
    (n = 0 → NodeAppendRange m dst src n = some m) ∧
    ∃ m', NodeAppendRange m dst src n = some m' ∧
      m'.oldD = m.oldD ∧
      NKeys m'.newD = NKeys m.newD ∧
      (∀ i, 1 ≤ i → i ≤ n → GetOffset m'.newD (dst + i) =
        some ((GetOffset m.newD dst).getD 0 +
          ((GetOffset m.oldD (src + i)).getD 0 - (GetOffset m.oldD src).getD 0))) ∧
      (∀ i, i < n → GetPtr m'.newD (dst + i) = GetPtr m.oldD (src + i)) ∧
      (∀ j, j < (GetOffset m.oldD (src + n)).getD 0 - (GetOffset m.oldD src).getD 0 →
        m'.newD (4 + 10 * NKeys m.newD + (GetOffset m.newD dst).getD 0 + j)
          = m.oldD (4 + 10 * NKeys m.oldD + (GetOffset m.oldD src).getD 0 + j) % 256) := by
  obtain ⟨dnew, dold⟩ := m
  dsimp only at h1 h2 hwN hwO hmono ⊢
  obtain ⟨dB, hdB, hdBlt⟩ := GetOffset_isSome dnew dst (by omega)
  obtain ⟨sB, hsB, hsBlt⟩ := GetOffset_isSome dold src (by omega)
  obtain ⟨oN, hoN, hoNlt⟩ := GetOffset_isSome dold (src + n) (by omega)
  simp only [hdB, hsB, hoN, Option.getD_some] at hwN hwO ⊢
  have hnkN := NKeys_lt dnew
  have hnkO := NKeys_lt dold
  have hsBoN : sB ≤ oN := by
    have h' := hmono n (Nat.le_refl n) 0 (Nat.zero_le n)
    have e0 : GetOffset dold (src + 0) = some sB := hsB
    simp only [e0, hoN, Option.getD_some] at h'
    exact h'
  have eA : add16 src n = src + n := by unfold add16; omega
  have eB : add16 dst n = dst + n := by unfold add16; omega
  by_cases hn : n = 0
  · subst hn
    have hsame : oN = sB := by
      have h' : GetOffset dold src = some oN := hoN
      rw [hsB] at h'
      exact (Option.some_inj.mp h').symm
    have heq0 : NodeAppendRange ⟨dnew, dold⟩ dst src 0 = some ⟨dnew, dold⟩ := by
      unfold NodeAppendRange
      rw [eA, eB, if_pos h1, if_pos h2, if_pos rfl]
    refine ⟨fun _ => heq0, ⟨dnew, dold⟩, heq0, rfl, rfl, ?_, ?_, ?_⟩
    · intro i hi1 hi2
      exact absurd (Nat.le_trans hi1 hi2) (by omega)
    · intro i hi
      exact absurd hi (by omega)
    · intro j hj
      rw [hsame] at hj
      exact absurd hj (by omega)
  · obtain ⟨p', hpl, hpnk, hpout, hpread⟩ :=
      ptrLoop_spec dst src n 0 dnew dold (by omega) (by omega) (by omega) (by omega)
    have hgoP : GetOffset p' dst = some dB := by
      rw [GetOffset_congr p' dnew dst hpnk (by omega) (by omega)
        (fun q hq1 hq2 => hpout q (Or.inr (by omega))), hdB]
    obtain ⟨o', hol, honk, hoout, horead⟩ :=
      offLoop_spec dst src dB sB n 1 p' dold (by omega)
        (by rw [hpnk]; omega) (by omega) (by rw [hpnk]; omega) (by omega)
    rw [hpnk] at honk hoout horead
    have hkvb : KVPos dold src = some (4 + 10 * NKeys dold + sB) := by
      rw [KVPos_eq dold src (by omega) sB hsB, u16_eq_self _ (by omega)]
    have hkve : KVPos dold (u16 (src + n)) = some (4 + 10 * NKeys dold + oN) := by
      rw [u16_eq_self _ (by omega),
        KVPos_eq dold (src + n) (by omega) oN hoN, u16_eq_self _ (by omega)]
    have hgoO : GetOffset o' dst = some dB := by
      rw [GetOffset_congr o' p' dst (by rw [honk, hpnk]) (by rw [hpnk]; omega)
        (by rw [hpnk]; omega)
        (fun q hq1 hq2 => by
          rw [hpnk] at hq1 hq2
          exact hoout q (Or.inl (by omega))), hgoP]
    have hkvd : KVPos o' dst = some (4 + 10 * NKeys dnew + dB) := by
      have h := KVPos_eq o' dst (by rw [honk]; omega) dB hgoO
      rw [honk] at h
      rw [h, u16_eq_self _ (by omega)]
    have eEB : 4 + 10 * NKeys dold + oN - (4 + 10 * NKeys dold + sB) = oN - sB := by
      omega
    have heq : NodeAppendRange ⟨dnew, dold⟩ dst src n
        = some ⟨copyBytes o' (4 + 10 * NKeys dnew + dB) dold
            (4 + 10 * NKeys dold + sB) (oN - sB), dold⟩ := by
      unfold NodeAppendRange
      rw [eA, eB, if_pos h1, if_pos h2, if_neg hn]
      simp only [hpl, hgoP, hsB, hol, hkvb, hkve, hkvd, eEB]
    have cnk : NKeys (copyBytes o' (4 + 10 * NKeys dnew + dB) dold
        (4 + 10 * NKeys dold + sB) (oN - sB)) = NKeys dnew := by
      rw [NKeys_copyBytes _ _ _ _ _ (by omega), honk]
    refine ⟨fun h => absurd h hn,
      ⟨copyBytes o' (4 + 10 * NKeys dnew + dB) dold
        (4 + 10 * NKeys dold + sB) (oN - sB), dold⟩, heq, rfl, cnk, ?_, ?_, ?_⟩
    · intro i hi1 hi2
      obtain ⟨oI, hoI, hoIlt⟩ := GetOffset_isSome dold (src + i) (by omega)
      have hIN : oI ≤ oN := by
        have h' := hmono n (Nat.le_refl n) i hi2
        simp only [hoI, hoN, Option.getD_some] at h'
        exact h'
      have hsI : sB ≤ oI := by
        have h' := hmono i hi2 0 (Nat.zero_le i)
        have e0 : GetOffset dold (src + 0) = some sB := hsB
        simp only [e0, hoI, Option.getD_some] at h'
        exact h'
      rw [GetOffset_congr
          (copyBytes o' (4 + 10 * NKeys dnew + dB) dold
            (4 + 10 * NKeys dold + sB) (oN - sB)) o' (dst + i)
          (by rw [cnk, honk]) (by rw [honk]; omega) (by rw [honk]; omega)
          (fun q hq1 hq2 => by
            rw [honk] at hq1 hq2
            exact copyBytes_out _ _ _ _ _ _ (Or.inl (by omega)))]
      rw [GetOffset_pos o' (dst + i) (by omega) (by rw [honk]; omega)
        (by rw [honk]; omega), honk]
      refine congrArg some ?_
      show readN o' (4 + 8 * NKeys dnew + 2 * (dst + i - 1)) 2 = _
      rw [horead i hi1 (by omega)]
      simp only [hoI, Option.getD_some]
      unfold sub16 add16
      omega
    · intro i hi
      rw [GetPtr_eq _ (dst + i) (by rw [cnk]; omega) (by omega),
        GetPtr_eq dold (src + i) (by omega) (by omega)]
      refine congrArg some ?_
      rw [readN_copyBytes_out 8 (oN - sB) o' (4 + 10 * NKeys dnew + dB) dold
          (4 + 10 * NKeys dold + sB) (4 + 8 * (dst + i)) (Or.inl (by omega)),
        readN_ext 8 o' p' (4 + 8 * (dst + i))
          (fun q2 hq2 => hoout _ (Or.inl (by omega)))]
      exact hpread i (Nat.zero_le i) (by omega)
    · intro j hj
      exact copyBytes_in (oN - sB) o' (4 + 10 * NKeys dnew + dB) dold
        (4 + 10 * NKeys dold + sB) j hj

/-- C6 witness: copying both entries of the two-entry leaf into a fresh
two-slot destination re-bases the offsets, copies the pointers and copies
the raw record bytes. -/
theorem C6_appendRange_witness :
    (∀ j, j ≤ 2 → ∀ i, i ≤ j →
      (GetOffset memC6.oldD (0 + i)).getD 0 ≤ (GetOffset memC6.oldD (0 + j)).getD 0) ∧
    ((2 = 0 → NodeAppendRange memC6 0 0 2 = some memC6) ∧
      ∃ m', NodeAppendRange memC6 0 0 2 = some m' ∧
        m'.oldD = memC6.oldD ∧
        NKeys m'.newD = NKeys memC6.newD ∧
        (∀ i, 1 ≤ i → i ≤ 2 → GetOffset m'.newD (0 + i) =
          some ((GetOffset memC6.newD 0).getD 0 +
            ((GetOffset memC6.oldD (0 + i)).getD 0 - (GetOffset memC6.oldD 0).getD 0))) ∧
        (∀ i, i < 2 → GetPtr m'.newD (0 + i) = GetPtr memC6.oldD (0 + i)) ∧
        (∀ j, j < (GetOffset memC6.oldD (0 + 2)).getD 0
            - (GetOffset memC6.oldD 0).getD 0 →
          m'.newD (4 + 10 * NKeys memC6.newD + (GetOffset memC6.newD 0).getD 0 + j)
            = memC6.oldD (4 + 10 * NKeys memC6.oldD
              + (GetOffset memC6.oldD 0).getD 0 + j) % 256)) :=
  ⟨by decide, C6_appendRange memC6 0 0 2 (by decide) (by decide) (by decide)
    (by decide) (by decide)⟩

end MyDB
